import Mathlib

/-!
Verification development for the CodeGuard AI pull-request review service.

The definitions below are a shallow embedding, in Lean, of the parts of the
backend that the specification talks about:

* `app/utils/codeguardignore.py` — ignore-pattern matching and diff filtering,
* `app/worker/processor.py`      — severity mapping, threshold filtering,
  file extraction from diffs, and the `process_review` pipeline driver,
* `app/agents/formatter.py`      — the markdown report renderer,
* `app/services/llm.py`          — structured-output retry loop and JSON
  escape repair,
* `app/agents/schemas.py` and `app/models/finding.py` — finding validation.

Python strings are modelled as `List Char`; text is processed line-wise with
an explicit `'\n'` separator, mirroring how the Python code uses
`re.MULTILINE` anchors and `str.splitlines`/`str.split`.
-/

namespace CodeGuard

/-! ## Basic text helpers (Python string semantics) -/

/-- Split a character list at every `'\n'`, like Python line-start positions
for `re.MULTILINE` (`^` matches at the start and after each newline).
Always returns at least one (possibly empty) line. -/
def splitLinesCL : List Char → List (List Char)
  | [] => [[]]
  | c :: rest =>
    if c = '\n' then [] :: splitLinesCL rest
    else
      match splitLinesCL rest with
      | l :: ls => (c :: l) :: ls
      | [] => [[c]]

/-- Re-join lines with `'\n'` separators: left inverse of `splitLinesCL`. -/
def joinLinesCL : List (List Char) → List Char
  | [] => []
  | [l] => l
  | l :: ls => l ++ '\n' :: joinLinesCL ls

/-- The set of characters `str.strip()` (and `str.isspace()`) treats as
whitespace (CPython's `Py_UNICODE_ISSPACE`), by code point: the ASCII
whitespace 0x9-0xd and 0x20, the file/group/record/unit separators
0x1c-0x1f, next line 0x85, no-break space 0xa0, ogham space mark 0x1680,
the Unicode spaces 0x2000-0x200a, line separator 0x2028, paragraph
separator 0x2029, narrow no-break space 0x202f, medium mathematical space
0x205f and ideographic space 0x3000. -/
def pyIsSpace (c : Char) : Bool :=
  let n := c.val.toNat
  (0x9 ≤ n && n ≤ 0xd) || n = 0x20 || (0x1c ≤ n && n ≤ 0x1f) ||
  n = 0x85 || n = 0xa0 || n = 0x1680 || (0x2000 ≤ n && n ≤ 0x200a) ||
  n = 0x2028 || n = 0x2029 || n = 0x202f || n = 0x205f || n = 0x3000

/-- `section.strip() == ""`: every character is whitespace. -/
def pyBlank (cs : List Char) : Bool := cs.all pyIsSpace

/-! ## Diff Segmenter (`processor.extract_files_from_diff`,
`codeguardignore.filter_diff`) -/

/-- The literal `"diff --git a/"` that precedes the captured path in the
header regex `^diff --git a/(.+?) b/`. -/
def headerPrefix : List Char :=
  ['d', 'i', 'f', 'f', ' ', '-', '-', 'g', 'i', 't', ' ', 'a', '/']

/-- The literal `"diff --git "` used by the section-split lookahead
`(?=^diff --git )`. -/
def splitPrefix : List Char :=
  ['d', 'i', 'f', 'f', ' ', '-', '-', 'g', 'i', 't', ' ']

/-- Lazy scan implementing the capture `(.+?) b/`: consume at least one
character, stopping at the first position where the literal `" b/"` follows;
`none` when no such position exists on the line. -/
def pathScan (acc : List Char) : List Char → Option (List Char)
  | [] => none
  | c :: rest =>
    match rest with
    | ' ' :: 'b' :: '/' :: _ => some (acc ++ [c])
    | _ => pathScan (acc ++ [c]) rest

/-- Match one line against `^diff --git a/(.+?) b/` and return the captured
path (the regex' `.` never crosses a newline, so the whole match lives on
one line). -/
def headerPath (line : List Char) : Option (List Char) :=
  if headerPrefix.isPrefixOf line then
    pathScan [] (line.drop headerPrefix.length)
  else none

/-- `processor.extract_files_from_diff`: every line matches the header regex
independently (`re.finditer` with `re.MULTILINE`). -/
def extract_files_from_diff (diff : List Char) : List (List Char) :=
  (splitLinesCL diff).filterMap headerPath

/-- Group the lines of a diff into the leading preamble (lines before the
first line starting with `"diff --git "`) and the file sections (each group
starts with such a line), mirroring
`re.split(r"(?=^diff --git )", diff, flags=re.MULTILINE)`. -/
def groupSectionsAux : List (List Char) → List (List Char) × List (List (List Char))
  | [] => ([], [])
  | l :: rest =>
    if splitPrefix.isPrefixOf l then
      ([], (l :: (groupSectionsAux rest).1) :: (groupSectionsAux rest).2)
    else
      (l :: (groupSectionsAux rest).1, (groupSectionsAux rest).2)

/-- All line-groups of a diff: the (possibly empty) preamble group followed
by the section groups. -/
def groupSections (ls : List (List Char)) : List (List (List Char)) :=
  (groupSectionsAux ls).1 :: (groupSectionsAux ls).2

/-- Materialise the line-groups back into the section strings `re.split`
produces: every section except the last carries its trailing newline, and an
empty leading group is the empty section string. -/
def sectionChunks : List (List (List Char)) → List (List Char)
  | [] => []
  | [g] => [joinLinesCL g]
  | g :: rest =>
    (if g.isEmpty then [] else joinLinesCL g ++ ['\n']) :: sectionChunks rest

/-- The section strings of a diff (their concatenation is the diff). -/
def sections (diff : List Char) : List (List Char) :=
  sectionChunks (groupSections (splitLinesCL diff))

/-- First line of a section string (what `re.match` on the section sees,
given that the header regex cannot cross a newline). -/
def firstLine : List Char → List Char
  | [] => []
  | c :: rest => if c = '\n' then [] else c :: firstLine rest

/-- `re.match(r"^diff --git a/(.+?) b/", section)`: anchored at the start of
the section string. -/
def sectionHeaderPath (s : List Char) : Option (List Char) :=
  headerPath (firstLine s)

/-! ## Ignore Filter (`codeguardignore`) -/

/-- One item of a compiled character class: a literal member or an
inclusive code-point range, as in the regex class `fnmatch.translate`
emits. -/
inductive ClassItem where
  | single (c : Char)
  | range (lo hi : Char)
deriving DecidableEq, Repr

/-- One token of a compiled glob pattern, mirroring what
`fnmatch.translate` emits for it: `star` for `*` (`.*`), `anyChar` for `?`
(`.`, and for the negated-empty class `[!]`), a literal character (also an
unterminated `[`), a character class `[...]`/`[!...]`, or `never` for the
empty class (`(?!)`). -/
inductive GlobTok where
  | star
  | anyChar
  | lit (c : Char)
  | cls (neg : Bool) (items : List ClassItem)
  | never
deriving DecidableEq, Repr

/-- Scan to the next unconditional `]`, returning the characters before it
and the rest after it (`none` when the bracket is unterminated). -/
def scanClose : List Char → Option (List Char × List Char)
  | [] => none
  | c :: rest =>
    if c = ']' then some ([], rest)
    else (scanClose rest).map (fun p => (c :: p.1, p.2))

/-- `fnmatch.translate`'s scan for the `]` closing a bracket: an initial
`!` and a `]` right after it (or a leading `]` with no `!`) count as class
content, not as the closing bracket. Returns the class content and the
rest of the pattern, or `none` for an unterminated bracket. -/
def classSplit (cs : List Char) : Option (List Char × List Char) :=
  match cs with
  | '!' :: ']' :: rest => (scanClose rest).map (fun p => ('!' :: ']' :: p.1, p.2))
  | '!' :: rest => (scanClose rest).map (fun p => ('!' :: p.1, p.2))
  | ']' :: rest => (scanClose rest).map (fun p => (']' :: p.1, p.2))
  | cs => scanClose cs

/-- The chunking loop of `fnmatch.translate` over a class content that
contains a `-`: repeatedly find the next `-` at index ≥ k (k starts past a
leading `!` and the first member, and jumps two places past each range's
end), cutting a chunk before each found dash. Returns the chunks found
and the start index of the remainder; fuel is the content length, and
each step consumes at least one character. -/
def dashChunksAux (content : List Char) : Nat → Nat → Nat → List (List Char) × Nat
  | 0, i, _ => ([], i)
  | fuel + 1, i, k =>
    match (content.drop k).findIdx? (fun c => c = '-') with
    | none => ([], i)
    | some d =>
      let kp := k + d
      let r := dashChunksAux content fuel (kp + 1) (kp + 3)
      (((content.take kp).drop i) :: r.1, r.2)

/-- The chunks of a dash-containing class content: the pieces between the
range-forming dashes, with a trailing dash folded into the last chunk as a
literal (`chunks[-1] += '-'`). -/
def dashChunks (content : List Char) : List (List Char) :=
  let k0 : Nat := if content.head? = some '!' then 2 else 1
  let r := dashChunksAux content content.length 0 k0
  let last := content.drop r.2
  if last.isEmpty then r.1.dropLast ++ [r.1.getLastD [] ++ ['-']]
  else r.1 ++ [last]

/-- `fnmatch.translate`'s removal of empty ranges (invalid in a regex):
processing right to left, when the last character of a chunk exceeds the
first character of the following chunk, the two endpoint characters are
deleted and the chunks merged. -/
def mergeChunks : List (List Char) → List (List Char)
  | [] => []
  | [c] => [c]
  | c :: rest =>
    match mergeChunks rest with
    | [] => [c]
    | d :: ds =>
      match c.getLast?, d.head? with
      | some a, some b =>
        if b < a then (c.dropLast ++ d.tail) :: ds else c :: d :: ds
      | _, _ => c :: d :: ds

/-- A character of the joined class body: a chunk character (escaped where
needed, hence always literal) or one of the joining dashes, which are the
only dashes the regex engine can read as range-forming. -/
inductive SeqTok where
  | ch (c : Char)
  | dash
deriving DecidableEq, Repr

/-- The joined class body `'-'.join(chunks)` with the chunk characters and
the joining dashes kept apart. -/
def seqOfChunks : List (List Char) → List SeqTok
  | [] => []
  | [c] => c.map SeqTok.ch
  | c :: rest => c.map SeqTok.ch ++ SeqTok.dash :: seqOfChunks rest

/-- The regex engine's reading of the joined class body: a character, a
joining dash and another character form a range; every other character —
including a joining dash not in that position — is a literal member. -/
def parseClassSeq : List SeqTok → List ClassItem
  | SeqTok.ch a :: SeqTok.dash :: SeqTok.ch b :: rest =>
    ClassItem.range a b :: parseClassSeq rest
  | SeqTok.ch a :: rest => ClassItem.single a :: parseClassSeq rest
  | SeqTok.dash :: rest => ClassItem.single '-' :: parseClassSeq rest
  | [] => []

/-- Compile one bracket class content the way `fnmatch.translate` does:
chunk and merge when it contains a dash, then: empty body → `(?!)` (never
matches), body `!` → `.` (any character), leading `!` → negated class,
otherwise a plain class. -/
def classTok (content : List Char) : GlobTok :=
  let chunks := if content.contains '-' then mergeChunks (dashChunks content)
                else [content]
  match seqOfChunks chunks with
  | [] => GlobTok.never
  | [SeqTok.ch '!'] => GlobTok.anyChar
  | SeqTok.ch '!' :: rest => GlobTok.cls true (parseClassSeq rest)
  | seq => GlobTok.cls false (parseClassSeq seq)

/-- `fnmatch.translate`: compile a glob pattern to tokens — `*` to `star`,
`?` to `anyChar`, `[...]` through `classSplit`/`classTok` (an unterminated
`[` is a literal), everything else literal. Fuel is the pattern length;
every step consumes at least one pattern character. -/
def translateGlobFuel : Nat → List Char → List GlobTok
  | 0, _ => []
  | _, [] => []
  | fuel + 1, c :: rest =>
    if c = '*' then GlobTok.star :: translateGlobFuel fuel rest
    else if c = '?' then GlobTok.anyChar :: translateGlobFuel fuel rest
    else if c = '[' then
      match classSplit rest with
      | none => GlobTok.lit '[' :: translateGlobFuel fuel rest
      | some p => classTok p.1 :: translateGlobFuel fuel p.2
    else GlobTok.lit c :: translateGlobFuel fuel rest

/-- The compiled token list of a glob pattern. -/
def translateGlob (pat : List Char) : List GlobTok :=
  translateGlobFuel pat.length pat

/-- Whether a character is in a class item (ranges compare code points,
as regex classes do). -/
def matchClassItem (c : Char) : ClassItem → Bool
  | ClassItem.single d => c = d
  | ClassItem.range lo hi => decide (lo ≤ c) && decide (c ≤ hi)

/-- Match a whole name against compiled tokens (the regex
`(?s:...)\x5cZ` — a full-string match with `.` also matching newlines).
Fuel: every call strictly decreases `tokens.length + name.length`, so the
fuel `globMatch` supplies is never exhausted. -/
def globTokMatch : Nat → List GlobTok → List Char → Bool
  | 0, _, _ => false
  | _ + 1, [], name => name.isEmpty
  | fuel + 1, GlobTok.star :: toks, [] => globTokMatch fuel toks []
  | fuel + 1, GlobTok.star :: toks, c :: name =>
    globTokMatch fuel toks (c :: name) ||
      globTokMatch fuel (GlobTok.star :: toks) name
  | fuel + 1, GlobTok.anyChar :: toks, _ :: name => globTokMatch fuel toks name
  | _ + 1, GlobTok.anyChar :: _, [] => false
  | fuel + 1, GlobTok.lit d :: toks, c :: name =>
    (c = d) && globTokMatch fuel toks name
  | _ + 1, GlobTok.lit _ :: _, [] => false
  | fuel + 1, GlobTok.cls neg items :: toks, c :: name =>
    ((items.any (matchClassItem c)) != neg) && globTokMatch fuel toks name
  | _ + 1, GlobTok.cls _ _ :: _, [] => false
  | _ + 1, GlobTok.never :: _, _ => false

/-- Whole-name glob match, `fnmatch.fnmatch(name, pattern)` (on POSIX
`os.path.normcase` is the identity, so this is `fnmatchcase`). -/
def globMatch (pattern name : List Char) : Bool :=
  let toks := translateGlob pattern
  globTokMatch (toks.length + name.length + 1) toks name

/-- Split a path on `'/'` (Python `file_path.split("/")`). -/
def splitSlash : List Char → List (List Char)
  | [] => [[]]
  | '/' :: rest => [] :: splitSlash rest
  | c :: rest =>
    match splitSlash rest with
    | l :: ls => (c :: l) :: ls
    | [] => [[c]]

/-- `file_path.split("/")[-1]`: the basename. -/
def basename (path : List Char) : List Char :=
  (splitSlash path).getLastD []

/-- `codeguardignore.DEFAULT_IGNORE_PATTERNS`. -/
def DEFAULT_IGNORE_PATTERNS : List (List Char) :=
  [('*' :: ".lock".toList),
   ('*' :: ".min.js".toList),
   ('*' :: ".min.css".toList),
   "package-lock.json".toList,
   "yarn.lock".toList,
   "pnpm-lock.yaml".toList,
   ('*' :: ".generated.*".toList),
   ('*' :: ".pb.go".toList),
   ('*' :: ".pb.py".toList)]

/-- `codeguardignore.should_ignore_file`: a path is ignored when any pattern
glob-matches the full path, the basename, or (for patterns containing a
slash) the full path again. -/
def should_ignore_file (file_path : List Char) (patterns : List (List Char)) : Bool :=
  patterns.any fun pattern =>
    globMatch pattern file_path ||
    globMatch pattern (basename file_path) ||
    (pattern.contains '/' && globMatch pattern file_path)

/-- `codeguardignore.parse_ignore_file`: keep stripped non-blank lines that
do not start with `#`. -/
def parse_ignore_file (content : List Char) : List (List Char) :=
  (splitLinesCL content).filterMap fun line =>
    let stripped := (line.dropWhile pyIsSpace).reverse.dropWhile pyIsSpace |>.reverse
    if stripped.isEmpty then none
    else if stripped.head? = some '#' then none
    else some stripped

/-- The per-section body of `filter_diff`'s loop over `file_sections`,
processed left to right: blank sections are skipped, sections without a
parseable header are kept as preamble, file sections are kept or ignored
according to `should_ignore_file`. Returns
`(kept_sections, kept_files, ignored_files)`. -/
def filterLoop (patterns : List (List Char)) :
    List (List Char) → List (List Char) × List (List Char) × List (List Char)
  | [] => ([], [], [])
  | s :: rest =>
    if pyBlank s then filterLoop patterns rest
    else
      match sectionHeaderPath s with
      | none =>
        (s :: (filterLoop patterns rest).1,
         (filterLoop patterns rest).2.1, (filterLoop patterns rest).2.2)
      | some p =>
        if should_ignore_file p patterns then
          ((filterLoop patterns rest).1,
           (filterLoop patterns rest).2.1, p :: (filterLoop patterns rest).2.2)
        else
          (s :: (filterLoop patterns rest).1,
           p :: (filterLoop patterns rest).2.1, (filterLoop patterns rest).2.2)

/-- `codeguardignore.filter_diff`: union the defaults with the user
patterns, split the diff into sections, filter, and re-concatenate. Returns
`(filtered_diff, kept_files, ignored_files)`. -/
def filter_diff (diff : List Char) (patterns : List (List Char)) :
    List Char × List (List Char) × List (List Char) :=
  let all_patterns := DEFAULT_IGNORE_PATTERNS ++ patterns
  let (kept_sections, kept_files, ignored_files) :=
    filterLoop all_patterns (sections diff)
  (kept_sections.flatten, kept_files, ignored_files)

/-! ## Finding data model (`app/models/finding.py`, `app/agents/schemas.py`) -/

/-- `models.finding.Severity` — the persisted severity enum. -/
inductive Severity
  | critical
  | high
  | medium
  | low
  | info
deriving DecidableEq, Repr

/-- `models.finding.AgentType`. -/
inductive AgentType
  | logic
  | security
  | quality
deriving DecidableEq, Repr

/-- `agents.schemas.AgentFinding` — a finding as produced by an analysis
agent; `severity` and `confidence` are carried as strings as on the wire. -/
structure AgentFinding where
  severity : String
  confidence : String
  file_path : String
  line_number : Option Int
  title : String
  description : String
  suggestion : Option String
deriving DecidableEq, Repr

/-- `models.FindingCreate` — a finding ready for database insertion. -/
structure FindingCreate where
  review_id : String
  agent_type : AgentType
  severity : Severity
  file_path : String
  line_number : Option Int
  title : String
  description : String
  suggestion : Option String
  confidence : String
deriving DecidableEq, Repr

/-- `models.settings.AgentsEnabled`. -/
structure AgentsEnabled where
  logic : Bool
  security : Bool
  quality : Bool
deriving DecidableEq, Repr

/-- The repository settings fields `process_review` consults
(`models.settings.SettingsBase`). -/
structure RepoSettings where
  enabled : Bool
  agents_enabled : AgentsEnabled
  severity_threshold : Severity
deriving DecidableEq, Repr

/-! ## Severity mapping and threshold filtering (`worker/processor.py`) -/

/-- `processor.SEVERITY_RANK`. -/
def SEVERITY_RANK : Severity → Nat
  | .critical => 0
  | .high => 1
  | .medium => 2
  | .low => 3
  | .info => 4

/-- `processor.map_agent_severity`: the dict lookup
`mapping.get(agent_severity, Severity.INFO)`. -/
def map_agent_severity (agent_severity : String) : Severity :=
  if agent_severity = "critical" then .critical
  else if agent_severity = "warning" then .medium
  else if agent_severity = "info" then .info
  else .info

/-- `processor.map_agent_type`: the dict lookup with default
`AgentType.LOGIC`. -/
def map_agent_type (agent_type_str : String) : AgentType :=
  if agent_type_str = "logic" then .logic
  else if agent_type_str = "security" then .security
  else if agent_type_str = "quality" then .quality
  else .logic

/-- `processor._map_finding`. -/
def map_finding (finding : AgentFinding) (review_id : String)
    (agent_type : String) : FindingCreate :=
  { review_id := review_id
    agent_type := map_agent_type agent_type
    severity := map_agent_severity finding.severity
    file_path := finding.file_path
    line_number := finding.line_number
    title := finding.title
    description := finding.description
    suggestion := finding.suggestion
    confidence := finding.confidence }

/-- The configured severity threshold: `repo_settings.severity_threshold if
repo_settings else Severity.INFO`. -/
def thresholdOf : Option RepoSettings → Severity
  | none => .info
  | some s => s.severity_threshold

/-- Step 6 of `process_review`: map each agent finding to a database
finding and keep it iff its mapped severity rank is numerically ≤ the
threshold rank, processing the buckets in the order logic, security,
quality. -/
def collectFindings (review_id : String) (severity_threshold : Severity)
    (logic security quality : List AgentFinding) : List FindingCreate :=
  let threshold_rank := SEVERITY_RANK severity_threshold
  (logic.map (fun f => map_finding f review_id "logic")).filter
      (fun m => SEVERITY_RANK m.severity ≤ threshold_rank)
    ++ (security.map (fun f => map_finding f review_id "security")).filter
      (fun m => SEVERITY_RANK m.severity ≤ threshold_rank)
    ++ (quality.map (fun f => map_finding f review_id "quality")).filter
      (fun m => SEVERITY_RANK m.severity ≤ threshold_rank)

/-! ## Finding validation (claim C9) -/

/-- Raw (unvalidated) wire data for an `AgentFinding`: the fields whose
validation the claim is about. -/
structure RawAgentFinding where
  severity : String
  confidence : String
  line_number : Option Int
deriving DecidableEq, Repr

/-- Pydantic validation of `agents.schemas.AgentFinding`: `severity` is
`Literal` critical/warning/info, `confidence` is `Literal` high/medium/low,
and `line_number` is a plain `Optional[int]` with no further constraint. -/
def validateAgentFinding (f : RawAgentFinding) : Bool :=
  (f.severity = "critical" || f.severity = "warning" || f.severity = "info") &&
    (f.confidence = "high" || f.confidence = "medium" || f.confidence = "low")

/-- Raw wire data for `models.finding.FindingBase`. -/
structure RawFindingBase where
  severity : String
  confidence : String
  line_number : Option Int
deriving DecidableEq, Repr

/-- Pydantic validation of `models.finding.FindingBase`: `severity` must be
one of the five persisted `Severity` enum values; `confidence` is a plain
`str` and `line_number` a plain `Optional[int]`, neither constrained
further. -/
def validateFindingBase (f : RawFindingBase) : Bool :=
  f.severity = "critical" || f.severity = "high" || f.severity = "medium" ||
    f.severity = "low" || f.severity = "info"

/-! ## Report Renderer (`agents/formatter.py`) -/

/-- `CommentFormatter.SEVERITY_ORDER`. -/
def SEVERITY_ORDER : List String := ["critical", "warning", "info"]

/-- `CommentFormatter.SEVERITY_EMOJI` (red, yellow and blue circles); only
ever indexed with a member of `SEVERITY_ORDER`. -/
def SEVERITY_EMOJI (s : String) : String :=
  if s = "critical" then "🔴" else if s = "warning" then "🟡" else "🔵"

/-- `CommentFormatter.SEVERITY_LABEL`; only ever indexed with a member of
`SEVERITY_ORDER`. -/
def SEVERITY_LABEL (s : String) : String :=
  if s = "critical" then "Critical"
  else if s = "warning" then "Warning"
  else "Info"

/-- The dict-building loop of `CommentFormatter.count_by_severity`, with
`counts.get(severity, 0)` giving the zero default. -/
def count_by_severity (findings : List AgentFinding) : String → Nat :=
  findings.foldl
    (fun counts f => fun k =>
      if k = f.severity then counts f.severity + 1 else counts k)
    (fun _ => 0)

/-- One summary line, `- {emoji} **{count} {label}** {plural}` with
singular/plural agreement on the noun. -/
def summaryLine (severity : String) (count : Nat) : String :=
  "- " ++ SEVERITY_EMOJI severity ++ " **" ++ toString count ++ " "
    ++ SEVERITY_LABEL severity ++ "** "
    ++ (if count ≠ 1 then "issues" else "issue")

/-- `CommentFormatter._format_finding` (Python truthiness: an empty
`suggestion` string renders no suggestion block). -/
def format_finding (finding : AgentFinding) (agent_type : String) : String :=
  let location :=
    match finding.line_number with
    | some n => finding.file_path ++ ":" ++ toString n
    | none => finding.file_path
  let lines :=
    ["<details>",
     "<summary><b>" ++ finding.title ++ "</b> (" ++ location ++ ") - "
       ++ agent_type ++ "</summary>",
     "",
     "**File:** `" ++ finding.file_path ++ "`"]
  let lines := lines ++
    (match finding.line_number with
     | some n => ["**Line:** " ++ toString n]
     | none => [])
  let lines := lines ++ ["**Agent:** " ++ agent_type, "", finding.description]
  let lines := lines ++
    (match finding.suggestion with
     | some s => if s = "" then [] else ["", "**Suggestion:** " ++ s]
     | none => [])
  let lines := lines ++ ["", "</details>"]
  String.intercalate "\n" lines

/-- The by-severity grouping dict of `CommentFormatter.format`, pre-seeded
with the three known severities. -/
structure SeverityGroups where
  critical : List (AgentFinding × String)
  warning : List (AgentFinding × String)
  info : List (AgentFinding × String)
deriving DecidableEq, Repr

/-- One step of the grouping loop; indexing the dict with an unknown
severity raises `KeyError` in Python, modelled as `none`. -/
def addToGroups (g : SeverityGroups) (p : AgentFinding × String) :
    Option SeverityGroups :=
  if p.1.severity = "critical" then some { g with critical := g.critical ++ [p] }
  else if p.1.severity = "warning" then some { g with warning := g.warning ++ [p] }
  else if p.1.severity = "info" then some { g with info := g.info ++ [p] }
  else none

/-- The grouping loop of `CommentFormatter.format`. -/
def groupBySeverity (all : List (AgentFinding × String)) : Option SeverityGroups :=
  all.foldlM addToGroups ⟨[], [], []⟩

/-- `findings_by_severity[severity]` for a severity in `SEVERITY_ORDER`. -/
def groupOf (g : SeverityGroups) (s : String) : List (AgentFinding × String) :=
  if s = "critical" then g.critical
  else if s = "warning" then g.warning
  else g.info

/-- `CommentFormatter._format_no_issues`. -/
def no_issues_message : String :=
  "## CodeGuard AI Review\n\nNo issues found! Your code looks good.\n\n---\n*Automated review by CodeGuard AI*"

/-- The line list `CommentFormatter.format` builds for a non-empty finding
set (`none` models the `KeyError` on a severity outside the three known
values). -/
def formatBody (all : List (AgentFinding × String)) : Option (List String) :=
  let combined := all.map Prod.fst
  let counts := count_by_severity combined
  let summary := SEVERITY_ORDER.filterMap (fun severity =>
    if counts severity > 0 then some (summaryLine severity (counts severity))
    else none)
  (groupBySeverity all).map (fun groups =>
    let sectionLines := SEVERITY_ORDER.flatMap (fun severity =>
      let findings := groupOf groups severity
      if findings.isEmpty then []
      else
        ["", "### " ++ SEVERITY_EMOJI severity ++ " " ++ SEVERITY_LABEL severity
           ++ " Issues", ""]
          ++ findings.flatMap (fun fa => [format_finding fa.1 fa.2, ""]))
    ["## CodeGuard AI Review", "", "### Summary"] ++ summary ++ sectionLines
      ++ ["---", "*Automated review by CodeGuard AI*"])

/-- `CommentFormatter.format`: tag the three buckets, short-circuit to the
no-issues message when everything is empty, otherwise render the line list
joined with newlines. -/
def formatComment
    (logic_findings security_findings quality_findings : List AgentFinding) :
    Option String :=
  let all := logic_findings.map (fun f => (f, "Logic"))
    ++ security_findings.map (fun f => (f, "Security"))
    ++ quality_findings.map (fun f => (f, "Quality"))
  if all.isEmpty then some no_issues_message
  else (formatBody all).map (String.intercalate "\n")

/-! ## Claim C6 — report rendering order and counts -/

/-- Concrete logic bucket for the C6 example (severities critical,
warning). -/
def c6_logic : List AgentFinding :=
  [⟨"critical", "high", "a.py", some 1, "L1", "d1", none⟩,
   ⟨"warning", "medium", "b.py", none, "L2", "d2", none⟩]

/-- Concrete security bucket for the C6 example (severities critical,
warning). -/
def c6_security : List AgentFinding :=
  [⟨"critical", "high", "c.py", some 2, "S1", "d3", some "fix"⟩,
   ⟨"warning", "low", "d.py", none, "S2", "d4", none⟩]

/-- Concrete quality bucket for the C6 example (severities warning,
info). -/
def c6_quality : List AgentFinding :=
  [⟨"warning", "medium", "e.py", none, "Q1", "d5", none⟩,
   ⟨"info", "medium", "f.py", some 3, "Q2", "d6", none⟩]

/-! ## JSON escape repair (`services/llm.py`, `LLMService._fix_json_escapes`) -/

/-- Hex digit test for `\uXXXX` escapes. -/
def isHexDigit (c : Char) : Bool :=
  c.isDigit || ('a' ≤ c && c ≤ 'f') || ('A' ≤ c && c ≤ 'F')

/-- The response bodies the repair handles correctly: every backslash
begins either a valid escape (with a complete `\uXXXX`) or an invalid
escape whose character is neither a backslash nor an apostrophe, and the
body carries no raw quote. -/
def okEscapes : List Char → Bool
  | [] => true
  | c :: rest =>
    if c = '\\' then
      match rest with
      | [] => false
      | e :: rest' =>
        if e = '\\' ∨ e = '\'' then false
        else if e = 'u' then
          match rest' with
          | h1 :: h2 :: h3 :: h4 :: _ =>
            isHexDigit h1 && isHexDigit h2 && isHexDigit h3 && isHexDigit h4 &&
              okEscapes rest'
          | _ => false
        else okEscapes rest'
    else if c = '"' then false
    else okEscapes rest

/-- Whether the backslash-apostrophe pair occurs anywhere. -/
def hasBackslashQuote : List Char → Bool
  | [] => false
  | c :: rest =>
    if c = '\\' then
      match rest with
      | [] => false
      | e :: _ => if e = '\'' then true else hasBackslashQuote rest
    else hasBackslashQuote rest

/-! ## Structured-output retry loop (`services/llm.py`,
`LLMService.invoke_structured`) -/

/-- Outcome of one attempt's try-block: a parsed value, a retryable
parsing/validation failure (`json.JSONDecodeError` or `ValueError`, which
the except clause catches), or any other exception, which it does not. -/
inductive AttemptResult (α : Type) where
  | success (val : α)
  | parseFailure (msg : String)
  | raisedOther (msg : String)
deriving DecidableEq, Repr

/-- What a call to `invoke_structured` did: the returned value or raised
error, the number of attempts made, and the number of fixed one-second
delays slept between attempts. -/
structure RetryOutcome (α : Type) where
  result : Except String α
  attempts : Nat
  sleeps : Nat
deriving Repr

/-- The loop `for attempt in range(max_retries + 1)`: a success returns; a
retryable failure sleeps one second and continues unless this was the last
attempt, in which case the bare `raise` re-raises it; any other exception
propagates immediately. `i` is the current attempt index and `left` the
number of attempts still allowed after this one; `responses i` is the
outcome of attempt `i`'s try-block. -/
def retryRun {α : Type} (responses : Nat → AttemptResult α) :
    Nat → Nat → RetryOutcome α
  | i, 0 =>
    match responses i with
    | .success v => ⟨.ok v, 1, 0⟩
    | .raisedOther e => ⟨.error e, 1, 0⟩
    | .parseFailure e => ⟨.error e, 1, 0⟩
  | i, left + 1 =>
    match responses i with
    | .success v => ⟨.ok v, 1, 0⟩
    | .raisedOther e => ⟨.error e, 1, 0⟩
    | .parseFailure _ =>
      let r := retryRun responses (i + 1) left
      ⟨r.result, r.attempts + 1, r.sleeps + 1⟩

/-- `LLMService.invoke_structured`'s control flow. -/
def invoke_structured {α : Type} (max_retries : Nat)
    (responses : Nat → AttemptResult α) : RetryOutcome α :=
  retryRun responses 0 max_retries

/-- The default value of the `max_retries` parameter. -/
def defaultMaxRetries : Nat := 2

/-- The front of each attempt's try-block: an empty or whitespace-only
response content raises `ValueError("LLM returned empty response")` — a
retryable failure — before any parsing; otherwise the rest of the attempt
(fence-stripping, escape repair, JSON parse, schema validation), abstracted
as `parse`, decides the outcome. -/
def attemptOfResponse {α : Type} (content : String)
    (parse : String → AttemptResult α) : AttemptResult α :=
  if content.trim = "" then .parseFailure "LLM returned empty response"
  else parse content

/-! ## Pipeline driver (`worker/processor.py`, `process_review`) -/

/-- The `models.review.ReviewStatus` values the driver writes. -/
inductive ReviewStatus
  | processing
  | completed
  | failed
deriving DecidableEq, Repr

/-- The result dict of `ReviewSupervisor.run` as the driver consumes it:
the three finding buckets and the formatted final comment. -/
structure SupervisorResult where
  logic_findings : List AgentFinding
  security_findings : List AgentFinding
  quality_findings : List AgentFinding
  final_comment : String
deriving DecidableEq, Repr

/-- The outcomes of the external calls one `process_review` run makes:
the repository settings row (absent when none exists), the diff fetch
(`github_service.get_pr_diff`, which may raise), the `.codeguardignore`
file content (`get_file_content`, `None` when absent), whether some
attempt of the rate-limit loop may proceed, the supervisor run as a
function of the filtered diff and kept files (may raise), the outcome of
`finding_repo.create_many` if it is called, the outcome of
`github_service.post_comment` if it is called (returning the response's
`id`), and whether the `update_status(FAILED)` call inside the exception
handler itself succeeds. -/
structure Env where
  repoSettings : Option RepoSettings
  diffFetch : Except String (List Char)
  ignoreContent : Option (List Char)
  rateLimitOk : Bool
  supRun : List Char → List (List Char) → Except String SupervisorResult
  persist : Except String Unit
  postResult : Except String (Option Nat)
  failUpdateOk : Bool

/-- The externally observable effects of one `process_review` run: every
`update_status` call in order (status and the `comment_id` passed, if
any), every progress stage broadcast in order, the raw diff stored by
`update_diff`, the findings persisted by `create_many`, and the comments
posted to the host. -/
structure Effects where
  statuses : List (ReviewStatus × Option Nat)
  broadcasts : List String
  storedDiff : Option (List Char)
  persisted : List FindingCreate
  posted : List String
deriving DecidableEq, Repr

/-- `processor.PROGRESS_STAGES`: the stage-name → (percentage, message)
dict. -/
def PROGRESS_STAGES (stage : String) : Option (Nat × String) :=
  if stage = "fetching_diff" then some (10, "Fetching PR diff from GitHub")
  else if stage = "fetching_context" then some (15, "Fetching file context")
  else if stage = "logic_agent" then some (25, "Running Logic Agent")
  else if stage = "security_agent" then some (40, "Running Security Agent")
  else if stage = "quality_agent" then some (55, "Running Quality Agent")
  else if stage = "critique_agent" then some (70, "Running Critique Agent")
  else if stage = "deduplicating" then some (80, "Deduplicating findings")
  else if stage = "formatting" then some (90, "Formatting comment")
  else if stage = "posting" then some (95, "Posting to GitHub")
  else if stage = "complete" then some (100, "Review complete")
  else none

/-- `processor.broadcast_progress`: a stage is broadcast iff it is a key
of `PROGRESS_STAGES`; unknown stages are dropped silently. -/
def broadcastStage (stage : String) (bs : List String) : List String :=
  if (PROGRESS_STAGES stage).isSome then bs ++ [stage] else bs

/-- The step-1c guard `if repo_settings and not repo_settings.enabled`. -/
def settingsDisabled : Option RepoSettings → Bool
  | none => false
  | some s => !s.enabled

/-- `user_patterns = parse_ignore_file(ignore_content) if ignore_content
else []` — Python truthiness makes both a missing file and an empty file
yield no user patterns. -/
def userPatternsOf : Option (List Char) → List (List Char)
  | none => []
  | some c => if c = [] then [] else parse_ignore_file c

/-- The `try`-block of `process_review`: the effects accumulated and, when
some step raised, the exception's message. Steps in source order: status →
processing; the disabled-repository short-circuit (completed + a single
`complete` broadcast); `fetching_diff` broadcast; diff fetch; raw-diff
store; `.codeguardignore` filtering; `fetching_context` broadcast; the
rate-limit gate; `logic_agent` broadcast; the supervisor run;
`critique_agent` broadcast; `formatting` broadcast; threshold filtering;
persistence (only when some finding survived); `posting` broadcast;
comment posting (only when the comment is non-empty); status → completed
with the returned comment id; `complete` broadcast. -/
def runBody (env : Env) (review_id : String) : Effects × Option String :=
  let st0 : List (ReviewStatus × Option Nat) := [(ReviewStatus.processing, none)]
  if settingsDisabled env.repoSettings then
    (⟨st0 ++ [(ReviewStatus.completed, none)],
      broadcastStage "complete" [], none, [], []⟩, none)
  else
    let bs1 := broadcastStage "fetching_diff" []
    match env.diffFetch with
    | .error e => (⟨st0, bs1, none, [], []⟩, some e)
    | .ok rawDiff =>
      let fd := filter_diff rawDiff (userPatternsOf env.ignoreContent)
      let bs2 := broadcastStage "fetching_context" bs1
      if !env.rateLimitOk then
        (⟨st0, bs2, some rawDiff, [], []⟩,
          some "Rate limit exceeded after max retries")
      else
        let bs3 := broadcastStage "logic_agent" bs2
        match env.supRun fd.1 fd.2.1 with
        | .error e => (⟨st0, bs3, some rawDiff, [], []⟩, some e)
        | .ok res =>
          let bs4 := broadcastStage "critique_agent" bs3
          let bs5 := broadcastStage "formatting" bs4
          let all_findings := collectFindings review_id
            (thresholdOf env.repoSettings)
            res.logic_findings res.security_findings res.quality_findings
          match (if all_findings.isEmpty then Except.ok () else env.persist) with
          | .error e => (⟨st0, bs5, some rawDiff, [], []⟩, some e)
          | .ok _ =>
            let bs6 := broadcastStage "posting" bs5
            if res.final_comment = "" then
              (⟨st0 ++ [(ReviewStatus.completed, none)],
                broadcastStage "complete" bs6, some rawDiff,
                all_findings, []⟩, none)
            else
              match env.postResult with
              | .error e =>
                (⟨st0, bs6, some rawDiff, all_findings, []⟩, some e)
              | .ok cid =>
                (⟨st0 ++ [(ReviewStatus.completed, cid)],
                  broadcastStage "complete" bs6, some rawDiff,
                  all_findings, [res.final_comment]⟩, none)

/-- `process_review` as a whole: the `try`-block plus the exception
handler, which on any raise updates the status to failed — swallowing a
failure of that update itself. -/
def process_review (env : Env) (review_id : String) : Effects :=
  let r := runBody env review_id
  match r.2 with
  | none => r.1
  | some _ =>
    if env.failUpdateOk then
      { r.1 with statuses := r.1.statuses ++ [(ReviewStatus.failed, none)] }
    else r.1

/-! ## Claim C2 — failure behavior of the pipeline driver -/

/-- A fully successful run: reviews enabled, diff fetched, rate limit
clear, supervisor succeeds with a non-empty comment, persistence and
posting succeed. -/
def C4env : Env :=
  { repoSettings := none
    diffFetch := Except.ok ['x']
    ignoreContent := none
    rateLimitOk := true
    supRun := fun _ _ => Except.ok
      { logic_findings := []
        security_findings := []
        quality_findings := []
        final_comment := "Report" }
    persist := Except.ok ()
    postResult := Except.ok (some 7)
    failUpdateOk := true }

/-- A single info-severity reconciled finding. -/
def C1finding : AgentFinding :=
  { severity := "info", confidence := "low", file_path := "app.py",
    line_number := some 3, title := "Nit", description := "Desc",
    suggestion := none }

/-- Repository settings with the severity threshold raised to critical. -/
def C1settings : RepoSettings :=
  { enabled := true
    agents_enabled := { logic := true, security := true, quality := true }
    severity_threshold := Severity.critical }

/-- A fully successful run under a critical threshold in which the
supervisor reconciles exactly the one info finding and — as
`ReviewSupervisor.run` does — renders the final comment from the full,
unfiltered finding list with the comment formatter. -/
def C1env : Env :=
  { repoSettings := some C1settings
    diffFetch := Except.ok ['x']
    ignoreContent := none
    rateLimitOk := true
    supRun := fun _ _ => Except.ok
      { logic_findings := [C1finding]
        security_findings := []
        quality_findings := []
        final_comment := (formatComment [C1finding] [] []).getD "" }
    persist := Except.ok ()
    postResult := Except.ok (some 5)
    failUpdateOk := true }

/-! ## Basic text helpers (Python string semantics) -/

theorem splitLinesCL_ne_nil (cs : List Char) : splitLinesCL cs ≠ [] := by
  induction cs with
  | nil => simp [splitLinesCL]
  | cons c rest ih =>
    by_cases hc : c = '\n'
    · simp [splitLinesCL, hc]
    · cases h : splitLinesCL rest with
      | nil => exact absurd h ih
      | cons l ls => simp [splitLinesCL, hc, h]

theorem joinLinesCL_splitLinesCL (cs : List Char) :
    joinLinesCL (splitLinesCL cs) = cs := by
  induction cs with
  | nil => rfl
  | cons c rest ih =>
    by_cases hc : c = '\n'
    · subst hc
      cases h : splitLinesCL rest with
      | nil => exact absurd h (splitLinesCL_ne_nil rest)
      | cons l ls =>
        rw [h] at ih
        simp only [splitLinesCL, if_pos rfl, h, joinLinesCL]
        exact congrArg ('\n' :: ·) ih
    · cases h : splitLinesCL rest with
      | nil => exact absurd h (splitLinesCL_ne_nil rest)
      | cons l ls =>
        rw [h] at ih
        simp only [splitLinesCL, if_neg hc, h]
        cases ls with
        | nil => simpa [joinLinesCL] using ih
        | cons m ms => simpa [joinLinesCL] using ih

/-! ## Structural lemmas about section splitting -/

theorem joinLinesCL_cons (h : List Char) (t : List (List Char)) :
    joinLinesCL (h :: t) = h ++ (if t.isEmpty then [] else '\n' :: joinLinesCL t) := by
  cases t <;> simp [joinLinesCL]

theorem joinLinesCL_append (a b : List (List Char)) (hb : b ≠ []) :
    joinLinesCL (a ++ b) =
      (if a.isEmpty then [] else joinLinesCL a ++ ['\n']) ++ joinLinesCL b := by
  induction a with
  | nil => simp
  | cons x a' ih =>
    have hab : a' ++ b ≠ [] := by
      intro h
      rw [List.append_eq_nil] at h
      exact hb h.2
    have habe : (a' ++ b).isEmpty = false := by
      cases h : a' ++ b with
      | nil => exact absurd h hab
      | cons => rfl
    rw [List.cons_append, joinLinesCL_cons, ih, habe]
    cases a' with
    | nil => simp [joinLinesCL]
    | cons y a'' => simp [joinLinesCL_cons, List.append_assoc]

theorem splitLinesCL_no_newline (cs : List Char) :
    ∀ l ∈ splitLinesCL cs, '\n' ∉ l := by
  induction cs with
  | nil => intro l hl; simp [splitLinesCL] at hl; simp [hl]
  | cons c rest ih =>
    intro l hl
    by_cases hc : c = '\n'
    · rw [splitLinesCL, if_pos hc] at hl
      rcases List.mem_cons.mp hl with rfl | hl'
      · simp
      · exact ih l hl'
    · cases h : splitLinesCL rest with
      | nil => exact absurd h (splitLinesCL_ne_nil rest)
      | cons m ms =>
        rw [splitLinesCL, if_neg hc, h] at hl
        rcases List.mem_cons.mp hl with rfl | hl'
        · intro hmem
          rcases List.mem_cons.mp hmem with rfl | hmem'
          · exact hc rfl
          · exact ih m (h ▸ List.mem_cons_self m ms) hmem'
        · exact ih l (h ▸ List.mem_cons_of_mem m hl')

theorem groupSectionsAux_flatten (ls : List (List Char)) :
    (groupSectionsAux ls).1 ++ (groupSectionsAux ls).2.flatten = ls := by
  induction ls with
  | nil => rfl
  | cons l rest ih =>
    by_cases hp : splitPrefix.isPrefixOf l
    · simp [groupSectionsAux, hp, ih]
    · simp only [groupSectionsAux, Bool.not_eq_true] at hp ⊢
      simp [hp, ih]

theorem groupSectionsAux_pre (ls : List (List Char)) :
    ∀ l ∈ (groupSectionsAux ls).1, splitPrefix.isPrefixOf l = false := by
  induction ls with
  | nil => intro l hl; simp [groupSectionsAux] at hl
  | cons x rest ih =>
    intro l hl
    by_cases hp : splitPrefix.isPrefixOf x
    · simp [groupSectionsAux, hp] at hl
    · rw [groupSectionsAux, if_neg hp] at hl
      rcases List.mem_cons.mp hl with rfl | hl'
      · exact Bool.eq_false_iff.mpr hp
      · exact ih l hl'

theorem groupSectionsAux_groups (ls : List (List Char)) :
    ∀ g ∈ (groupSectionsAux ls).2, ∃ h t, g = h :: t ∧
      splitPrefix.isPrefixOf h = true ∧ ∀ l ∈ t, splitPrefix.isPrefixOf l = false := by
  induction ls with
  | nil => intro g hg; simp [groupSectionsAux] at hg
  | cons x rest ih =>
    intro g hg
    by_cases hp : splitPrefix.isPrefixOf x
    · rw [groupSectionsAux, if_pos hp] at hg
      rcases List.mem_cons.mp hg with rfl | hg'
      · exact ⟨x, (groupSectionsAux rest).1, rfl, hp, groupSectionsAux_pre rest⟩
      · exact ih g hg'
    · rw [groupSectionsAux, if_neg hp] at hg
      exact ih g hg

theorem sectionChunks_flatten (gl : List (List (List Char)))
    (hne : ∀ g ∈ gl.drop 1, g ≠ []) :
    (sectionChunks gl).flatten = joinLinesCL gl.flatten := by
  induction gl with
  | nil => rfl
  | cons g rest ih =>
    cases rest with
    | nil => simp [sectionChunks, joinLinesCL]
    | cons g' rest' =>
      have hg' : g' ≠ [] := hne g' (by simp)
      have hflat : g' ++ rest'.flatten ≠ [] := by
        intro h
        rw [List.append_eq_nil] at h
        exact hg' h.1
      have ih' := ih (fun x hx => hne x (by
        simp only [List.drop_one, List.tail_cons] at hx ⊢
        exact List.mem_cons_of_mem g' hx))
      simp only [List.flatten_cons] at ih' ⊢
      simp only [sectionChunks]
      rw [List.flatten_cons, ih',
        joinLinesCL_append g (g' ++ rest'.flatten) hflat]

theorem isPrefixOf_append_left :
    ∀ (a b l : List Char), (a ++ b).isPrefixOf l = true → a.isPrefixOf l = true := by
  intro a
  induction a with
  | nil => intro b l _; simp [List.isPrefixOf]
  | cons x a' ih =>
    intro b l h
    cases l with
    | nil => simp [List.isPrefixOf] at h
    | cons y l' =>
      simp only [List.cons_append, List.isPrefixOf, Bool.and_eq_true] at h ⊢
      exact ⟨h.1, ih b l' h.2⟩

theorem headerPrefix_eq : headerPrefix = splitPrefix ++ ['a', '/'] := by decide

/-- A line that does not start with `"diff --git "` cannot match the file
header regex. -/
theorem headerPath_none_of_not_split {l : List Char}
    (hp : splitPrefix.isPrefixOf l = false) : headerPath l = none := by
  unfold headerPath
  rw [if_neg]
  intro hcontra
  rw [headerPrefix_eq] at hcontra
  rw [isPrefixOf_append_left _ _ _ hcontra] at hp
  exact Bool.true_eq_false.mp hp

theorem firstLine_append_newline (h r : List Char) (hn : '\n' ∉ h) :
    firstLine (h ++ '\n' :: r) = h := by
  induction h with
  | nil => simp [firstLine]
  | cons c h' ih =>
    have hc : c ≠ '\n' := fun hc => hn (hc ▸ List.mem_cons_self c h')
    have ih' := ih (fun hm => hn (List.mem_cons_of_mem c hm))
    simp [firstLine, hc, ih']

theorem firstLine_of_no_newline (h : List Char) (hn : '\n' ∉ h) :
    firstLine h = h := by
  induction h with
  | nil => rfl
  | cons c h' ih =>
    have hc : c ≠ '\n' := fun hc => hn (hc ▸ List.mem_cons_self c h')
    have ih' := ih (fun hm => hn (List.mem_cons_of_mem c hm))
    simp [firstLine, hc, ih']

/-- The first line of a section chunk built from line-group `h :: t` is `h`,
whether or not the chunk carries a trailing newline. -/
theorem chunk_firstLine (h : List Char) (t : List (List Char)) (hn : '\n' ∉ h) :
    firstLine (joinLinesCL (h :: t)) = h ∧
    firstLine (joinLinesCL (h :: t) ++ ['\n']) = h := by
  cases t with
  | nil =>
    constructor
    · exact firstLine_of_no_newline h hn
    · simpa using firstLine_append_newline h [] hn
  | cons g t' =>
    rw [joinLinesCL_cons]
    simp only [List.isEmpty_cons, if_neg]
    constructor
    · exact firstLine_append_newline h _ hn
    · rw [List.append_assoc]
      exact firstLine_append_newline h _ hn

/-- A chunk whose first line starts with a non-whitespace character is not
blank. -/
theorem chunk_not_blank (c : Char) (h' : List Char) (t : List (List Char))
    (hc : pyIsSpace c = false) :
    pyBlank (joinLinesCL ((c :: h') :: t)) = false ∧
    pyBlank (joinLinesCL ((c :: h') :: t) ++ ['\n']) = false := by
  rw [joinLinesCL_cons]
  constructor <;> simp [pyBlank, hc]

/-- A line starting with `"diff --git "` starts with `'d'`. -/
theorem splitPrefix_head {h : List Char} (hp : splitPrefix.isPrefixOf h = true) :
    ∃ h', h = 'd' :: h' := by
  cases h with
  | nil => simp [splitPrefix, List.isPrefixOf] at hp
  | cons c h' =>
    simp only [splitPrefix, List.isPrefixOf, Bool.and_eq_true, beq_iff_eq] at hp
    exact ⟨h', by rw [hp.1]⟩

/-- Over the file groups of a diff, the filtering loop distributes each
parsed header path into `kept_files` or `ignored_files` according to
`should_ignore_file`, preserving order. -/
theorem filterLoop_files (pats : List (List Char)) (gl : List (List (List Char)))
    (hwf : ∀ g ∈ gl, ∃ h t, g = h :: t ∧
      splitPrefix.isPrefixOf h = true ∧ '\n' ∉ h) :
    (filterLoop pats (sectionChunks gl)).2.1
        = (gl.filterMap (fun g => headerPath (g.headD []))).filter
            (fun p => !should_ignore_file p pats) ∧
      (filterLoop pats (sectionChunks gl)).2.2
        = (gl.filterMap (fun g => headerPath (g.headD []))).filter
            (fun p => should_ignore_file p pats) := by
  induction gl with
  | nil => exact ⟨rfl, rfl⟩
  | cons g rest ih =>
    obtain ⟨h, t, rfl, hp, hn⟩ := hwf _ (List.mem_cons_self _ _)
    obtain ⟨h', rfl⟩ := splitPrefix_head hp
    have hcs : pyIsSpace 'd' = false := by decide
    have hblank := chunk_not_blank 'd' h' t hcs
    have hfl := chunk_firstLine ('d' :: h') t hn
    have ih' := ih (fun g hg => hwf g (List.mem_cons_of_mem _ hg))
    cases rest with
    | nil =>
      have hsec : sectionChunks [('d' :: h') :: t] = [joinLinesCL (('d' :: h') :: t)] := rfl
      rw [hsec]
      cases hh : headerPath ('d' :: h') with
      | none =>
        simp [filterLoop, hblank.1, sectionHeaderPath, hfl.1, hh]
      | some p =>
        by_cases hig : should_ignore_file p pats <;>
          simp [filterLoop, hblank.1, sectionHeaderPath, hfl.1, hh, hig]
    | cons g' rest' =>
      have hne : (('d' :: h') :: t).isEmpty = false := rfl
      have hsec : sectionChunks ((('d' :: h') :: t) :: g' :: rest')
          = (joinLinesCL (('d' :: h') :: t) ++ ['\n']) :: sectionChunks (g' :: rest') := by
        simp [sectionChunks]
      rw [hsec]
      cases hh : headerPath ('d' :: h') with
      | none =>
        simp [filterLoop, hblank.2, sectionHeaderPath, hfl.2, hh, ih'.1, ih'.2]
      | some p =>
        by_cases hig : should_ignore_file p pats <;>
          simp [filterLoop, hblank.2, sectionHeaderPath, hfl.2, hh, hig, ih'.1, ih'.2]

/-- The kept sections are exactly the non-blank sections that either have
no parseable header (preamble) or whose path is not ignored, in order. -/
theorem filterLoop_kept_sections (pats : List (List Char)) (secs : List (List Char)) :
    (filterLoop pats secs).1 = secs.filter (fun s => !pyBlank s &&
      (match sectionHeaderPath s with
       | none => true
       | some p => !should_ignore_file p pats)) := by
  induction secs with
  | nil => rfl
  | cons s rest ih =>
    by_cases hb : pyBlank s
    · simp [filterLoop, hb, List.filter_cons, ih]
    · cases hh : sectionHeaderPath s with
      | none => simp [filterLoop, hb, hh, List.filter_cons, ih]
      | some p =>
        by_cases hig : should_ignore_file p pats <;>
          simp [filterLoop, hb, hh, hig, List.filter_cons, ih]

/-- When every blank section is empty and no parsed path is ignored, the
loop keeps every byte of every section. -/
theorem filterLoop_kept_all (pats : List (List Char)) (secs : List (List Char))
    (hblank : ∀ s ∈ secs, pyBlank s = true → s = [])
    (hkeep : ∀ s ∈ secs, ∀ p, sectionHeaderPath s = some p →
      should_ignore_file p pats = false) :
    (filterLoop pats secs).1.flatten = secs.flatten := by
  induction secs with
  | nil => rfl
  | cons s rest ih =>
    have ih' := ih (fun x hx => hblank x (List.mem_cons_of_mem s hx))
      (fun x hx => hkeep x (List.mem_cons_of_mem s hx))
    by_cases hb : pyBlank s
    · have hs : s = [] := hblank s (List.mem_cons_self s rest) hb
      subst hs
      simp [filterLoop, pyBlank, ih']
    · cases hh : sectionHeaderPath s with
      | none => simp [filterLoop, hb, hh, ih']
      | some p =>
        have := hkeep s (List.mem_cons_self s rest) p hh
        simp [filterLoop, hb, hh, this, ih']

theorem filterMap_headerPath_flatten (gl : List (List (List Char)))
    (hwf : ∀ g ∈ gl, ∃ h t, g = h :: t ∧
      ∀ l ∈ t, splitPrefix.isPrefixOf l = false) :
    gl.flatten.filterMap headerPath
      = gl.filterMap (fun g => headerPath (g.headD [])) := by
  induction gl with
  | nil => rfl
  | cons g rest ih =>
    obtain ⟨h, t, rfl, ht⟩ := hwf _ (List.mem_cons_self _ _)
    have ih' := ih (fun x hx => hwf x (List.mem_cons_of_mem _ hx))
    have htnone : t.filterMap headerPath = [] := by
      rw [List.filterMap_eq_nil]
      exact fun l hl => headerPath_none_of_not_split (ht l hl)
    simp only [List.flatten_cons, List.filterMap_append, List.cons_append,
      List.filterMap_cons, List.headD_cons]
    cases hh : headerPath h <;> simp [hh, htnone, ih']

/-- `extract_files_from_diff` finds exactly the header paths of the file
sections, in order. -/
theorem extract_files_eq_groups (diff : List Char) :
    extract_files_from_diff diff
      = ((groupSectionsAux (splitLinesCL diff)).2).filterMap
          (fun g => headerPath (g.headD [])) := by
  unfold extract_files_from_diff
  conv_lhs => rw [← groupSectionsAux_flatten (splitLinesCL diff)]
  rw [List.filterMap_append]
  have hpre : (groupSectionsAux (splitLinesCL diff)).1.filterMap headerPath = [] := by
    rw [List.filterMap_eq_nil]
    exact fun l hl =>
      headerPath_none_of_not_split (groupSectionsAux_pre (splitLinesCL diff) l hl)
  rw [hpre, List.nil_append]
  exact filterMap_headerPath_flatten _ (fun g hg => by
    obtain ⟨h, t, rfl, -, ht⟩ := groupSectionsAux_groups (splitLinesCL diff) g hg
    exact ⟨h, t, rfl, ht⟩)

/-- The section strings of a diff concatenate back to the diff,
byte for byte. -/
theorem sections_flatten (diff : List Char) : (sections diff).flatten = diff := by
  unfold sections groupSections
  have hne : ∀ g ∈ ((groupSectionsAux (splitLinesCL diff)).1 ::
      (groupSectionsAux (splitLinesCL diff)).2).drop 1, g ≠ [] := by
    intro g hg
    simp only [List.drop_one, List.tail_cons] at hg
    obtain ⟨h, t, rfl, -, -⟩ := groupSectionsAux_groups (splitLinesCL diff) g hg
    simp
  rw [sectionChunks_flatten _ hne]
  simp only [List.flatten_cons]
  rw [groupSectionsAux_flatten, joinLinesCL_splitLinesCL]

/-- Every line of a file group of a diff is a line of the diff. -/
theorem group_line_mem (diff : List Char) :
    ∀ g ∈ (groupSectionsAux (splitLinesCL diff)).2, ∀ x ∈ g,
      x ∈ splitLinesCL diff := by
  intro g hg x hx
  rw [← groupSectionsAux_flatten (splitLinesCL diff)]
  exact List.mem_append_right _ (List.mem_flatten.mpr ⟨g, hg, hx⟩)

/-- The file groups of a diff satisfy the shape the filtering lemmas need:
each starts with a newline-free `"diff --git "` line. -/
theorem groups_wellformed (diff : List Char) :
    ∀ g ∈ (groupSectionsAux (splitLinesCL diff)).2, ∃ h t, g = h :: t ∧
      splitPrefix.isPrefixOf h = true ∧ '\n' ∉ h := by
  intro g hg
  obtain ⟨h, t, rfl, hp, -⟩ := groupSectionsAux_groups (splitLinesCL diff) g hg
  exact ⟨h, t, rfl, hp, splitLinesCL_no_newline diff h
    (group_line_mem diff _ hg h (List.mem_cons_self _ _))⟩

/-- The preamble section of a diff contributes nothing to the kept/ignored
file lists: the filtering loop over all sections computes the same file
lists as the loop over just the file sections. -/
theorem filterLoop_sections_files (diff : List Char) (pats : List (List Char)) :
    (filterLoop pats (sections diff)).2
      = (filterLoop pats
          (sectionChunks (groupSectionsAux (splitLinesCL diff)).2)).2 := by
  have hnl := splitLinesCL_no_newline diff
  have hpre := groupSectionsAux_pre (splitLinesCL diff)
  unfold sections groupSections
  cases hgs : (groupSectionsAux (splitLinesCL diff)).2 with
  | nil =>
    cases hpr : (groupSectionsAux (splitLinesCL diff)).1 with
    | nil => rfl
    | cons l t =>
      have hnll : '\n' ∉ l := hnl l (by
        rw [← groupSectionsAux_flatten (splitLinesCL diff), hpr]
        exact List.mem_append_left _ (List.mem_cons_self _ _))
      have hfl := (chunk_firstLine l t hnll).1
      have hhp : headerPath l = none :=
        headerPath_none_of_not_split (hpre l (by rw [hpr]; exact List.mem_cons_self _ _))
      by_cases hb : pyBlank (joinLinesCL (l :: t)) <;>
        simp [sectionChunks, filterLoop, hb, sectionHeaderPath, hfl, hhp]
  | cons g0 gs' =>
    cases hpr : (groupSectionsAux (splitLinesCL diff)).1 with
    | nil => simp [sectionChunks, filterLoop, pyBlank]
    | cons l t =>
      have hnll : '\n' ∉ l := hnl l (by
        rw [← groupSectionsAux_flatten (splitLinesCL diff), hpr]
        exact List.mem_append_left _ (List.mem_cons_self _ _))
      have hfl := (chunk_firstLine l t hnll).2
      have hhp : headerPath l = none :=
        headerPath_none_of_not_split (hpre l (by rw [hpr]; exact List.mem_cons_self _ _))
      by_cases hb : pyBlank (joinLinesCL (l :: t) ++ ['\n']) <;>
        simp [sectionChunks, filterLoop, hb, sectionHeaderPath, hfl, hhp]

theorem sectionChunks_header_mem (gl : List (List (List Char)))
    (hwf : ∀ g ∈ gl, ∃ h t, g = h :: t ∧
      splitPrefix.isPrefixOf h = true ∧ '\n' ∉ h) :
    ∀ s ∈ sectionChunks gl, ∀ p, sectionHeaderPath s = some p →
      p ∈ gl.filterMap (fun g => headerPath (g.headD [])) := by
  induction gl with
  | nil => intro s hs; simp [sectionChunks] at hs
  | cons g rest ih =>
    obtain ⟨h, t, rfl, hp, hn⟩ := hwf _ (List.mem_cons_self _ _)
    have hfl := chunk_firstLine h t hn
    have ih' := ih (fun x hx => hwf x (List.mem_cons_of_mem _ hx))
    intro s hs p hsp
    cases rest with
    | nil =>
      have hseq : s = joinLinesCL (h :: t) := by simpa [sectionChunks] using hs
      rw [hseq] at hsp
      rw [sectionHeaderPath, hfl.1] at hsp
      simp [List.filterMap_cons, hsp]
    | cons g' rest' =>
      have hne : ((h :: t) : List (List Char)).isEmpty = false := rfl
      rw [show sectionChunks ((h :: t) :: g' :: rest')
          = (joinLinesCL (h :: t) ++ ['\n']) :: sectionChunks (g' :: rest') by
        simp [sectionChunks]] at hs
      rcases List.mem_cons.mp hs with rfl | hs'
      · rw [sectionHeaderPath, hfl.2] at hsp
        simp [List.filterMap_cons, hsp]
      · have hmemtl := ih' s hs' p hsp
        cases hh : headerPath h with
        | none =>
          have hstep : List.filterMap (fun g => headerPath (g.headD [])) ((h :: t) :: g' :: rest')
              = List.filterMap (fun g => headerPath (g.headD [])) (g' :: rest') := by
            simp [List.filterMap_cons, hh]
          rw [hstep]
          exact hmemtl
        | some q =>
          have hstep : List.filterMap (fun g => headerPath (g.headD [])) ((h :: t) :: g' :: rest')
              = q :: List.filterMap (fun g => headerPath (g.headD [])) (g' :: rest') := by
            simp [List.filterMap_cons, hh]
          rw [hstep]
          exact List.mem_cons_of_mem q hmemtl

/-- Any path parsed out of a section of a diff is one of the diff's
extracted changed files. -/
theorem sections_header_mem (diff : List Char) :
    ∀ s ∈ sections diff, ∀ p, sectionHeaderPath s = some p →
      p ∈ extract_files_from_diff diff := by
  have hnl := splitLinesCL_no_newline diff
  have hpre := groupSectionsAux_pre (splitLinesCL diff)
  have hmem := sectionChunks_header_mem (groupSectionsAux (splitLinesCL diff)).2
    (groups_wellformed diff)
  rw [extract_files_eq_groups]
  unfold sections groupSections
  intro s hs p hsp
  cases hgs : (groupSectionsAux (splitLinesCL diff)).2 with
  | nil =>
    rw [hgs] at hs
    have hseq : s = joinLinesCL (groupSectionsAux (splitLinesCL diff)).1 := by
      simpa [sectionChunks] using hs
    cases hpr : (groupSectionsAux (splitLinesCL diff)).1 with
    | nil =>
      rw [hseq, hpr] at hsp
      simp [sectionHeaderPath, joinLinesCL, firstLine, headerPath,
        headerPrefix, List.isPrefixOf] at hsp
    | cons l t =>
      have hnll : '\n' ∉ l := hnl l (by
        rw [← groupSectionsAux_flatten (splitLinesCL diff), hpr]
        exact List.mem_append_left _ (List.mem_cons_self _ _))
      rw [hseq, hpr, sectionHeaderPath, (chunk_firstLine l t hnll).1,
        headerPath_none_of_not_split
          (hpre l (by rw [hpr]; exact List.mem_cons_self _ _))] at hsp
      exact absurd hsp (by simp)
  | cons g0 gs' =>
    rw [hgs] at hs
    have hchunks : sectionChunks ((groupSectionsAux (splitLinesCL diff)).1 :: g0 :: gs')
        = (if (groupSectionsAux (splitLinesCL diff)).1.isEmpty then []
            else joinLinesCL (groupSectionsAux (splitLinesCL diff)).1 ++ ['\n'])
          :: sectionChunks (g0 :: gs') := by
      simp [sectionChunks]
    rw [hchunks] at hs
    rcases List.mem_cons.mp hs with rfl | hs'
    · cases hpr : (groupSectionsAux (splitLinesCL diff)).1 with
      | nil =>
        rw [hpr] at hsp
        simp [sectionHeaderPath, firstLine, headerPath,
          headerPrefix, List.isPrefixOf] at hsp
      | cons l t =>
        have hnll : '\n' ∉ l := hnl l (by
          rw [← groupSectionsAux_flatten (splitLinesCL diff), hpr]
          exact List.mem_append_left _ (List.mem_cons_self _ _))
        rw [hpr] at hsp
        rw [show (if ((l :: t) : List (List Char)).isEmpty = true then ([] : List Char)
              else joinLinesCL (l :: t) ++ ['\n']) = joinLinesCL (l :: t) ++ ['\n']
            from rfl] at hsp
        rw [sectionHeaderPath, (chunk_firstLine l t hnll).2,
          headerPath_none_of_not_split
            (hpre l (by rw [hpr]; exact List.mem_cons_self _ _))] at hsp
        exact absurd hsp (by simp)
    · rw [← hgs] at hs' ⊢
      exact hmem s hs' p hsp

/-- `filter_diff` partitions the parsed header paths of a diff between
`kept_files` and `ignored_files` according to `should_ignore_file` against
the union of built-in and user patterns, preserving header order. -/
theorem filter_diff_files (diff : List Char) (pats : List (List Char)) :
    (filter_diff diff pats).2.1
        = (extract_files_from_diff diff).filter
            (fun p => !should_ignore_file p (DEFAULT_IGNORE_PATTERNS ++ pats)) ∧
      (filter_diff diff pats).2.2
        = (extract_files_from_diff diff).filter
            (fun p => should_ignore_file p (DEFAULT_IGNORE_PATTERNS ++ pats)) := by
  have hfiles := filterLoop_files (DEFAULT_IGNORE_PATTERNS ++ pats)
    (groupSectionsAux (splitLinesCL diff)).2 (groups_wellformed diff)
  have hsec := filterLoop_sections_files diff (DEFAULT_IGNORE_PATTERNS ++ pats)
  rw [extract_files_eq_groups]
  unfold filter_diff
  constructor
  · show (filterLoop _ (sections diff)).2.1 = _
    rw [hsec, hfiles.1]
  · show (filterLoop _ (sections diff)).2.2 = _
    rw [hsec, hfiles.2]

/-! ## Glob matcher sanity checks -/

/-- Concrete checks of the compiled glob matcher against `fnmatch`
behavior: character classes with ranges, negated classes, the literal
dash after a range in `[a-b-c]`, the never-matching empty range `[z-a]`,
and the literal unterminated bracket. -/
theorem globMatch_class_examples :
    globMatch "[a-c].py".toList "b.py".toList = true ∧
    globMatch "[a-c].py".toList "d.py".toList = false ∧
    globMatch "[!0-9]*".toList "x1".toList = true ∧
    globMatch "[!0-9]*".toList "7x".toList = false ∧
    globMatch "[a-b-c]".toList "-".toList = true ∧
    globMatch "[z-a]".toList "m".toList = false ∧
    globMatch "[".toList "[".toList = true ∧
    globMatch "*.lock".toList "vendor.lock".toList = true ∧
    globMatch "[seq".toList "xseq".toList = false := by
  decide

/-! ## Claim C10 — filter partition invariant -/

/-- **C10** (amended): for every diff text and every pattern list, each file
path parsed from a well-formed `diff --git a/X b/` header appears in exactly
one of `kept_files` or `ignored_files` — the two lists are the complementary
filterings of `extract_files_from_diff` by `should_ignore_file` against the
default-plus-user patterns, each preserving header appearance order — and
the returned filtered diff is exactly the concatenation, in order, of the
non-blank sections that are either non-file preamble or kept file sections
(the sections concatenate back to the diff; a whitespace-only preamble
section is dropped, the one amendment to the claim as stated). -/
theorem C10_filter_partition (diff : List Char) (pats : List (List Char)) :
    (filter_diff diff pats).2.1
        = (extract_files_from_diff diff).filter
            (fun p => !should_ignore_file p (DEFAULT_IGNORE_PATTERNS ++ pats)) ∧
    (filter_diff diff pats).2.2
        = (extract_files_from_diff diff).filter
            (fun p => should_ignore_file p (DEFAULT_IGNORE_PATTERNS ++ pats)) ∧
    (filter_diff diff pats).1
        = ((sections diff).filter (fun s => !pyBlank s &&
            (match sectionHeaderPath s with
             | none => true
             | some p => !should_ignore_file p (DEFAULT_IGNORE_PATTERNS ++ pats)))).flatten ∧
    (sections diff).flatten = diff := by
  refine ⟨(filter_diff_files diff pats).1, (filter_diff_files diff pats).2, ?_,
    sections_flatten diff⟩
  show (filterLoop _ (sections diff)).1.flatten = _
  rw [filterLoop_kept_sections]

/-- **C10** counterexample to the claim as stated: for the diff
`"\ndiff --git a/x b/x\n+1"` the whitespace-only preamble section `"\n"` is
a non-file section, yet the filtered diff omits it, so the filtered diff is
not the concatenation of the non-file preamble sections plus the kept
sections. -/
theorem C10_counterexample :
    sections "\ndiff --git a/x b/x\n+1".toList
        = ["\n".toList, "diff --git a/x b/x\n+1".toList] ∧
    sectionHeaderPath "\n".toList = none ∧
    (filter_diff "\ndiff --git a/x b/x\n+1".toList []).2.1 = ["x".toList] ∧
    (filter_diff "\ndiff --git a/x b/x\n+1".toList []).2.2 = [] ∧
    (filter_diff "\ndiff --git a/x b/x\n+1".toList []).1
        = "diff --git a/x b/x\n+1".toList ∧
    "diff --git a/x b/x\n+1".toList
        ≠ "\n".toList ++ "diff --git a/x b/x\n+1".toList := by
  decide

/-! ## Claim C3 — round-trip with an empty user rule set -/

/-- **C3** (amended): filtering a diff with an empty user rule set returns
the diff byte-for-byte unchanged, the full changed-file list as
`kept_files`, and an empty `ignored_files` list — provided no changed file
matches the built-in default ignore patterns (which are always unioned with
the user rules) and every whitespace-only section of the diff is empty. -/
theorem C3_filter_empty_rules (diff : List Char)
    (hdef : ∀ p ∈ extract_files_from_diff diff,
      should_ignore_file p DEFAULT_IGNORE_PATTERNS = false)
    (hblank : ∀ s ∈ sections diff, pyBlank s = true → s = []) :
    filter_diff diff [] = (diff, extract_files_from_diff diff, []) := by
  have hdef' : ∀ p ∈ extract_files_from_diff diff,
      should_ignore_file p (DEFAULT_IGNORE_PATTERNS ++ []) = false := by
    simpa using hdef
  have hfiles := filter_diff_files diff []
  have h1 : (filter_diff diff []).1 = diff := by
    show (filterLoop _ (sections diff)).1.flatten = diff
    rw [filterLoop_kept_all _ _ hblank
      (fun s hs p hsp => hdef' p (sections_header_mem diff s hs p hsp))]
    exact sections_flatten diff
  have h2 : (filter_diff diff []).2.1 = extract_files_from_diff diff := by
    rw [hfiles.1]
    exact List.filter_eq_self.mpr (fun p hp => by rw [hdef' p hp]; rfl)
  have h3 : (filter_diff diff []).2.2 = [] := by
    rw [hfiles.2]
    exact List.filter_eq_nil_iff.mpr (fun p hp => by rw [hdef' p hp]; exact Bool.false_ne_true)
  rw [Prod.ext_iff, Prod.ext_iff]
  exact ⟨h1, h2, h3⟩

/-- **C3** witness: a concrete diff touching `src/app.py` (which matches no
default ignore pattern) round-trips through `filter_diff` with empty user
rules. -/
theorem C3_filter_empty_rules_witness :
    filter_diff "diff --git a/src/app.py b/src/app.py\n+import os".toList []
      = ("diff --git a/src/app.py b/src/app.py\n+import os".toList,
         extract_files_from_diff "diff --git a/src/app.py b/src/app.py\n+import os".toList,
         []) :=
  C3_filter_empty_rules _ (by decide) (by decide)

/-- **C3** counterexample to the claim as stated: the diff touching
`yarn.lock` is filtered away even with an empty user rule set, because the
built-in default patterns are always unioned in: the filtered diff is
empty (not the original), `kept_files` is empty (not the full file list)
and `ignored_files` is non-empty. -/
theorem C3_counterexample :
    (filter_diff "diff --git a/yarn.lock b/yarn.lock\n+1\n".toList []).1 = [] ∧
    (filter_diff "diff --git a/yarn.lock b/yarn.lock\n+1\n".toList []).2.1 = [] ∧
    (filter_diff "diff --git a/yarn.lock b/yarn.lock\n+1\n".toList []).2.2
        = ["yarn.lock".toList] ∧
    extract_files_from_diff "diff --git a/yarn.lock b/yarn.lock\n+1\n".toList
        = ["yarn.lock".toList] ∧
    "diff --git a/yarn.lock b/yarn.lock\n+1\n".toList ≠ [] := by
  decide

/-! ## Claim C5 — zero-header edge case -/

/-- **C5** (amended): for every diff with no line matching the
`diff --git a/… b/` header pattern — in fact with no line starting
`"diff --git "` at all the same argument applies — `extract_files_from_diff`
returns `[]`, and for every rule list `filter_diff` returns the diff
unchanged with empty kept and ignored lists, provided every whitespace-only
section of the diff is empty (a non-empty all-whitespace diff is the one
amendment: its text is dropped from the filtered diff). -/
theorem C5_zero_header (diff : List Char) (rules : List (List Char))
    (hnohdr : ∀ l ∈ splitLinesCL diff, headerPath l = none)
    (hblank : ∀ s ∈ sections diff, pyBlank s = true → s = []) :
    extract_files_from_diff diff = [] ∧
    filter_diff diff rules = (diff, [], []) := by
  have hext : extract_files_from_diff diff = [] := by
    unfold extract_files_from_diff
    rw [List.filterMap_eq_nil]
    exact hnohdr
  have hkeep : ∀ s ∈ sections diff, ∀ p, sectionHeaderPath s = some p →
      should_ignore_file p (DEFAULT_IGNORE_PATTERNS ++ rules) = false := by
    intro s hs p hsp
    have := sections_header_mem diff s hs p hsp
    rw [hext] at this
    exact absurd this (List.not_mem_nil p)
  have hfiles := filter_diff_files diff rules
  have h1 : (filter_diff diff rules).1 = diff := by
    show (filterLoop _ (sections diff)).1.flatten = diff
    rw [filterLoop_kept_all _ _ hblank hkeep]
    exact sections_flatten diff
  have h2 : (filter_diff diff rules).2.1 = [] := by
    rw [hfiles.1, hext]
    rfl
  have h3 : (filter_diff diff rules).2.2 = [] := by
    rw [hfiles.2, hext]
    rfl
  refine ⟨hext, ?_⟩
  rw [Prod.ext_iff, Prod.ext_iff]
  exact ⟨h1, h2, h3⟩

/-- **C5** witness: a headerless two-line text passes through `filter_diff`
unchanged even against a match-everything user rule. -/
theorem C5_zero_header_witness :
    extract_files_from_diff "just some text\nno headers here".toList = [] ∧
    filter_diff "just some text\nno headers here".toList ["*".toList]
      = ("just some text\nno headers here".toList, [], []) :=
  C5_zero_header _ _ (by decide) (by decide)

/-- **C5** counterexample to the claim as stated: the diff `"\n"` has no
`diff --git` header, yet `filter_diff` drops the whitespace-only section and
returns the empty string instead of the original text. -/
theorem C5_counterexample :
    extract_files_from_diff ['\n'] = [] ∧
    filter_diff ['\n'] [] = ([], [], []) ∧
    (['\n'] : List Char) ≠ [] := by
  decide

/-! ## Severity mapping and threshold filtering (`worker/processor.py`) -/

theorem severity_rank_le_four (s : Severity) : SEVERITY_RANK s ≤ 4 := by
  cases s <;> simp [SEVERITY_RANK]

theorem severity_rank_zero_iff (s : Severity) :
    SEVERITY_RANK s ≤ 0 ↔ s = .critical := by
  cases s <;> simp [SEVERITY_RANK]

/-! ## Claim C1 — severity-threshold filtering -/

/-- **C1** (amended): a reconciled finding is kept for persistence iff the
rank of its mapped severity is numerically ≤ the rank of the configured
threshold; agent severities map critical→critical, warning→medium,
info→info with ranks critical=0, high=1, medium=2, low=3, info=4; the
threshold defaults to info when no repository settings exist; threshold
info keeps every finding and threshold critical keeps only critical
findings. The threshold does not gate posting: on a successful run the
driver posts the supervisor's `final_comment` — rendered from the full
reconciled finding list before any threshold filtering — unchanged, while
persisting only the threshold-filtered findings. -/
theorem C1_severity_threshold (review_id : String) (t : Severity)
    (logic security quality : List AgentFinding) :
    collectFindings review_id t logic security quality
        = ((logic.map (fun f => map_finding f review_id "logic"))
            ++ security.map (fun f => map_finding f review_id "security")
            ++ quality.map (fun f => map_finding f review_id "quality")).filter
              (fun m => SEVERITY_RANK m.severity ≤ SEVERITY_RANK t) ∧
    (map_agent_severity "critical" = .critical ∧
      map_agent_severity "warning" = .medium ∧
      map_agent_severity "info" = .info) ∧
    (SEVERITY_RANK .critical = 0 ∧ SEVERITY_RANK .high = 1 ∧
      SEVERITY_RANK .medium = 2 ∧ SEVERITY_RANK .low = 3 ∧
      SEVERITY_RANK .info = 4) ∧
    thresholdOf none = .info ∧
    collectFindings review_id .info logic security quality
        = (logic.map (fun f => map_finding f review_id "logic"))
            ++ security.map (fun f => map_finding f review_id "security")
            ++ quality.map (fun f => map_finding f review_id "quality") ∧
    (∀ f ∈ collectFindings review_id .critical logic security quality,
        f.severity = Severity.critical) ∧
    (∀ (env : Env) (rid : String) (d : List Char) (res : SupervisorResult)
        (cid : Option Nat),
        settingsDisabled env.repoSettings = false →
        env.diffFetch = Except.ok d →
        env.rateLimitOk = true →
        env.supRun (filter_diff d (userPatternsOf env.ignoreContent)).1
            (filter_diff d (userPatternsOf env.ignoreContent)).2.1
          = Except.ok res →
        env.persist = Except.ok () →
        res.final_comment ≠ "" →
        env.postResult = Except.ok cid →
        (process_review env rid).posted = [res.final_comment] ∧
        (process_review env rid).persisted
          = collectFindings rid (thresholdOf env.repoSettings)
              res.logic_findings res.security_findings
              res.quality_findings) := by
  refine ⟨?_, ⟨rfl, rfl, rfl⟩, ⟨rfl, rfl, rfl, rfl, rfl⟩, rfl, ?_, ?_, ?_⟩
  · simp [collectFindings, List.filter_append]
  · simp only [collectFindings]
    rw [List.filter_eq_self.mpr, List.filter_eq_self.mpr, List.filter_eq_self.mpr]
    all_goals intro m _
    all_goals simpa [SEVERITY_RANK] using severity_rank_le_four m.severity
  · intro f hf
    simp only [collectFindings, List.mem_append, List.mem_filter] at hf
    have hrank : SEVERITY_RANK f.severity ≤ SEVERITY_RANK Severity.critical := by
      rcases hf with (⟨-, h⟩ | ⟨-, h⟩) | ⟨-, h⟩ <;> exact of_decide_eq_true h
    exact (severity_rank_zero_iff f.severity).mp hrank
  · intro env rid d res cid hdis hdiff hrate hsup hper hc hpost
    by_cases hfe : (collectFindings rid (thresholdOf env.repoSettings)
        res.logic_findings res.security_findings
        res.quality_findings).isEmpty
    · constructor
      · simp [process_review, runBody, hdis, hdiff, hrate, hsup, hfe, hper,
          hc, hpost]
      · simp [process_review, runBody, hdis, hdiff, hrate, hsup, hfe, hper,
          hc, hpost]
    · constructor
      · simp [process_review, runBody, hdis, hdiff, hrate, hsup, hfe, hper,
          hc, hpost]
      · simp [process_review, runBody, hdis, hdiff, hrate, hsup, hfe, hper,
          hc, hpost]

/-- **C1** witness: with threshold `medium` (the mapped image of an agent
`warning`), a critical and a warning finding are kept while an info finding
is dropped; with threshold `critical` only the critical finding survives,
and the claim's "only critical" conjunct applies to it. -/
theorem C1_severity_threshold_witness :
    collectFindings "r" .critical
        [⟨"critical", "high", "a.py", none, "t", "d", none⟩]
        [⟨"warning", "medium", "b.py", none, "t", "d", none⟩]
        [⟨"info", "low", "c.py", none, "t", "d", none⟩]
      = [map_finding ⟨"critical", "high", "a.py", none, "t", "d", none⟩ "r" "logic"] ∧
    (map_finding ⟨"critical", "high", "a.py", none, "t", "d", none⟩ "r" "logic").severity
      = Severity.critical ∧
    collectFindings "r" .medium
        [⟨"critical", "high", "a.py", none, "t", "d", none⟩]
        [⟨"warning", "medium", "b.py", none, "t", "d", none⟩]
        [⟨"info", "low", "c.py", none, "t", "d", none⟩]
      = [map_finding ⟨"critical", "high", "a.py", none, "t", "d", none⟩ "r" "logic",
         map_finding ⟨"warning", "medium", "b.py", none, "t", "d", none⟩ "r" "security"] :=
  ⟨by decide,
   (C1_severity_threshold "r" Severity.critical
      [⟨"critical", "high", "a.py", none, "t", "d", none⟩]
      [⟨"warning", "medium", "b.py", none, "t", "d", none⟩]
      [⟨"info", "low", "c.py", none, "t", "d", none⟩]).2.2.2.2.2.1
     (map_finding ⟨"critical", "high", "a.py", none, "t", "d", none⟩ "r" "logic")
     (by decide),
   by decide⟩

set_option maxRecDepth 8000 in
/-- **C1** counterexample to the claim as stated: in `C1env` the threshold
is critical and the only reconciled finding is an info finding (mapped
rank 4 > 0), so per the claim it should be kept neither for persistence
nor for posting — and indeed nothing is persisted, but the posted comment
is the formatter's rendering of that very finding: the below-threshold
finding is still posted. -/
theorem C1_counterexample :
    thresholdOf C1env.repoSettings = Severity.critical ∧
    map_agent_severity C1finding.severity = Severity.info ∧
    SEVERITY_RANK (map_agent_severity C1finding.severity) = 4 ∧
    (process_review C1env "r1").persisted = [] ∧
    (process_review C1env "r1").posted
        = [(formatComment [C1finding] [] []).getD ""] ∧
    (process_review C1env "r1").posted ≠ [] ∧
    (process_review C1env "r1").statuses
        = [(ReviewStatus.processing, none),
           (ReviewStatus.completed, some 5)] := by
  decide

/-! ## Finding validation (claim C9) -/

/-- **C9** (amended): agent-finding validation accepts `severity` exactly
from the closed set critical/warning/info and `confidence` exactly from
high/medium/low, and persisted-finding validation accepts `severity`
exactly from the five-value persisted enum; `line_number` is accepted
whether absent or any integer — the non-negativity requirement of the
claim is not enforced by either model. -/
theorem C9_validation_closure (f : RawAgentFinding) (g : RawFindingBase) :
    (validateAgentFinding f = true ↔
      ((f.severity = "critical" ∨ f.severity = "warning" ∨ f.severity = "info") ∧
        (f.confidence = "high" ∨ f.confidence = "medium" ∨ f.confidence = "low"))) ∧
    (validateFindingBase g = true ↔
      (g.severity = "critical" ∨ g.severity = "high" ∨ g.severity = "medium" ∨
        g.severity = "low" ∨ g.severity = "info")) ∧
    (∀ n : Option Int,
      validateAgentFinding ⟨f.severity, f.confidence, n⟩ = validateAgentFinding f ∧
      validateFindingBase ⟨g.severity, g.confidence, n⟩ = validateFindingBase g) := by
  refine ⟨?_, ?_, fun n => ⟨rfl, rfl⟩⟩
  · simp [validateAgentFinding, or_assoc]
  · simp [validateFindingBase, or_assoc]

/-- **C9** counterexample to the claim as stated: a finding with
`line_number = -5` (present and negative) passes both validations, although
the claim says `line_number` is accepted only when absent or
non-negative. -/
theorem C9_counterexample :
    validateAgentFinding ⟨"info", "medium", some (-5)⟩ = true ∧
    validateFindingBase ⟨"low", "medium", some (-5)⟩ = true ∧
    ((-5 : Int) < 0 ∧ (some (-5) : Option Int) ≠ none) := by
  decide

/-! ## Report Renderer (`agents/formatter.py`) -/

theorem count_by_severity_go (fs : List AgentFinding) :
    ∀ (acc : String → Nat) (s : String),
      (fs.foldl (fun counts f => fun k =>
        if k = f.severity then counts f.severity + 1 else counts k) acc) s
      = acc s + (fs.filter (fun f => f.severity = s)).length := by
  induction fs with
  | nil => intro acc s; simp
  | cons f fs ih =>
    intro acc s
    rw [List.foldl_cons, ih]
    by_cases hs : s = f.severity
    · subst hs
      simp [List.filter_cons]
      omega
    · rw [if_neg hs]
      have : (decide (f.severity = s)) = false := by
        simp
        exact fun h => hs h.symm
      simp [List.filter_cons, this]

/-- The counting dict agrees with the per-severity filter length. -/
theorem count_by_severity_eq (fs : List AgentFinding) (s : String) :
    count_by_severity fs s = (fs.filter (fun f => f.severity = s)).length := by
  unfold count_by_severity
  rw [count_by_severity_go]
  simp

theorem foldlM_addToGroups (all : List (AgentFinding × String)) :
    ∀ acc : SeverityGroups,
      (∀ p ∈ all, p.1.severity = "critical" ∨ p.1.severity = "warning" ∨
        p.1.severity = "info") →
      all.foldlM addToGroups acc = some
        ⟨acc.critical ++ all.filter (fun p => p.1.severity = "critical"),
         acc.warning ++ all.filter (fun p => p.1.severity = "warning"),
         acc.info ++ all.filter (fun p => p.1.severity = "info")⟩ := by
  induction all with
  | nil => intro acc _; simp
  | cons p rest ih =>
    intro acc hv
    rw [List.foldlM_cons]
    have ih' : ∀ acc' : SeverityGroups, List.foldlM addToGroups acc' rest = some
        ⟨acc'.critical ++ rest.filter (fun p => p.1.severity = "critical"),
         acc'.warning ++ rest.filter (fun p => p.1.severity = "warning"),
         acc'.info ++ rest.filter (fun p => p.1.severity = "info")⟩ :=
      fun acc' => ih acc' (fun q hq => hv q (List.mem_cons_of_mem p hq))
    rcases hv p (List.mem_cons_self p rest) with h | h | h
    · have hstep : addToGroups acc p
          = some { acc with critical := acc.critical ++ [p] } := by
        simp [addToGroups, h]
      rw [hstep]
      simp only [Option.bind_eq_bind, Option.some_bind]
      rw [ih']
      simp +decide [List.filter_cons, h, List.append_assoc]
    · have hstep : addToGroups acc p
          = some { acc with warning := acc.warning ++ [p] } := by
        simp [addToGroups, h]
      rw [hstep]
      simp only [Option.bind_eq_bind, Option.some_bind]
      rw [ih']
      simp +decide [List.filter_cons, h, List.append_assoc]
    · have hstep : addToGroups acc p
          = some { acc with info := acc.info ++ [p] } := by
        simp [addToGroups, h]
      rw [hstep]
      simp only [Option.bind_eq_bind, Option.some_bind]
      rw [ih']
      simp +decide [List.filter_cons, h, List.append_assoc]

/-- For findings drawn from the three known severities, the grouping loop
produces exactly the order-preserving filterings of the input. -/
theorem groupBySeverity_eq (all : List (AgentFinding × String))
    (hv : ∀ p ∈ all, p.1.severity = "critical" ∨ p.1.severity = "warning" ∨
      p.1.severity = "info") :
    groupBySeverity all = some
      ⟨all.filter (fun p => p.1.severity = "critical"),
       all.filter (fun p => p.1.severity = "warning"),
       all.filter (fun p => p.1.severity = "info")⟩ := by
  unfold groupBySeverity
  rw [foldlM_addToGroups all ⟨[], [], []⟩ hv]
  rfl

/-! ## Claim C6 — report rendering order and counts -/

/-- **C6**: for every non-empty triple of buckets of findings carrying the
three agent severities, the rendered report is the fixed header, then one
summary line per non-zero severity count in the order critical, warning,
info (`summaryLine` carries the singular/plural agreement), then one
section per non-empty severity in that same fixed order whose entries are
the logic entries, then security, then quality, each bucket kept in its
original order (order-preserving filters, no re-sorting), then the fixed
footer. -/
theorem C6_report_rendering (logic security quality : List AgentFinding)
    (hval : ∀ f ∈ logic ++ security ++ quality,
      f.severity = "critical" ∨ f.severity = "warning" ∨ f.severity = "info")
    (hne : logic ++ security ++ quality ≠ []) :
    formatComment logic security quality = some (String.intercalate "\n"
      (["## CodeGuard AI Review", "", "### Summary"]
        ++ SEVERITY_ORDER.filterMap (fun s =>
            if ((logic ++ security ++ quality).filter
                (fun f => f.severity = s)).length > 0 then
              some (summaryLine s ((logic ++ security ++ quality).filter
                (fun f => f.severity = s)).length)
            else none)
        ++ SEVERITY_ORDER.flatMap (fun s =>
            let entries :=
              (logic.map (fun f => (f, "Logic"))).filter
                  (fun p => p.1.severity = s)
                ++ (security.map (fun f => (f, "Security"))).filter
                  (fun p => p.1.severity = s)
                ++ (quality.map (fun f => (f, "Quality"))).filter
                  (fun p => p.1.severity = s)
            if entries.isEmpty then []
            else
              ["", "### " ++ SEVERITY_EMOJI s ++ " " ++ SEVERITY_LABEL s
                 ++ " Issues", ""]
                ++ entries.flatMap (fun fa => [format_finding fa.1 fa.2, ""]))
        ++ ["---", "*Automated review by CodeGuard AI*"])) := by
  have hvp : ∀ p ∈ logic.map (fun f => (f, "Logic"))
      ++ security.map (fun f => (f, "Security"))
      ++ quality.map (fun f => (f, "Quality")),
      p.1.severity = "critical" ∨ p.1.severity = "warning" ∨
        p.1.severity = "info" := by
    intro p hp
    rcases List.mem_append.mp hp with hp' | hp'
    · rcases List.mem_append.mp hp' with hp'' | hp''
      · obtain ⟨f, hf, rfl⟩ := List.mem_map.mp hp''
        exact hval f (List.mem_append_left _ (List.mem_append_left _ hf))
      · obtain ⟨f, hf, rfl⟩ := List.mem_map.mp hp''
        exact hval f (List.mem_append_left _ (List.mem_append_right _ hf))
    · obtain ⟨f, hf, rfl⟩ := List.mem_map.mp hp'
      exact hval f (List.mem_append_right _ hf)
  have hnemp : (logic.map (fun f => (f, "Logic"))
      ++ security.map (fun f => (f, "Security"))
      ++ quality.map (fun f => (f, "Quality"))).isEmpty = false := by
    rcases List.exists_mem_of_ne_nil _ hne with ⟨f, hf⟩
    rcases List.mem_append.mp hf with hf' | hf'
    · rcases List.mem_append.mp hf' with hf'' | hf''
      · simp only [List.isEmpty_eq_false_iff_exists_mem]
        exact ⟨(f, "Logic"), List.mem_append_left _ (List.mem_append_left _
          (List.mem_map_of_mem _ hf''))⟩
      · simp only [List.isEmpty_eq_false_iff_exists_mem]
        exact ⟨(f, "Security"), List.mem_append_left _ (List.mem_append_right _
          (List.mem_map_of_mem _ hf''))⟩
    · simp only [List.isEmpty_eq_false_iff_exists_mem]
      exact ⟨(f, "Quality"), List.mem_append_right _ (List.mem_map_of_mem _ hf')⟩
  have huntag : ∀ (tag : String) (l : List AgentFinding),
      (l.map (fun f => (f, tag))).map Prod.fst = l := by
    intro tag l
    induction l with
    | nil => rfl
    | cons a t ih => simp [ih]
  have hmapfst : (logic.map (fun f => (f, "Logic"))
      ++ security.map (fun f => (f, "Security"))
      ++ quality.map (fun f => (f, "Quality"))).map Prod.fst
      = logic ++ security ++ quality := by
    simp only [List.map_append, huntag]
  have hcount : ∀ s, count_by_severity ((logic.map (fun f => (f, "Logic"))
      ++ security.map (fun f => (f, "Security"))
      ++ quality.map (fun f => (f, "Quality"))).map Prod.fst) s
      = ((logic ++ security ++ quality).filter (fun f => f.severity = s)).length := by
    intro s
    rw [hmapfst, count_by_severity_eq]
  unfold formatComment
  rw [if_neg (by rw [hnemp]; exact Bool.false_ne_true)]
  unfold formatBody
  rw [groupBySeverity_eq _ hvp]
  simp only [Option.map_some']
  congr 2
  simp only [hcount]
  simp only [SEVERITY_ORDER, List.flatMap_cons, List.flatMap_nil,
    List.filter_append]
  simp +decide [groupOf]

/-- **C6** witness: the rendering theorem applied to buckets whose combined
severities are two critical, three warning and one info, together with the
exact summary-line strings the claim's example expects. -/
theorem C6_report_rendering_witness :
    formatComment c6_logic c6_security c6_quality = some (String.intercalate "\n"
      (["## CodeGuard AI Review", "", "### Summary"]
        ++ SEVERITY_ORDER.filterMap (fun s =>
            if ((c6_logic ++ c6_security ++ c6_quality).filter
                (fun f => f.severity = s)).length > 0 then
              some (summaryLine s ((c6_logic ++ c6_security ++ c6_quality).filter
                (fun f => f.severity = s)).length)
            else none)
        ++ SEVERITY_ORDER.flatMap (fun s =>
            let entries :=
              (c6_logic.map (fun f => (f, "Logic"))).filter
                  (fun p => p.1.severity = s)
                ++ (c6_security.map (fun f => (f, "Security"))).filter
                  (fun p => p.1.severity = s)
                ++ (c6_quality.map (fun f => (f, "Quality"))).filter
                  (fun p => p.1.severity = s)
            if entries.isEmpty then []
            else
              ["", "### " ++ SEVERITY_EMOJI s ++ " " ++ SEVERITY_LABEL s
                 ++ " Issues", ""]
                ++ entries.flatMap (fun fa => [format_finding fa.1 fa.2, ""]))
        ++ ["---", "*Automated review by CodeGuard AI*"])) ∧
    summaryLine "critical" 2 = "- 🔴 **2 Critical** issues" ∧
    summaryLine "warning" 3 = "- 🟡 **3 Warning** issues" ∧
    summaryLine "info" 1 = "- 🔵 **1 Info** issue" ∧
    (c6_logic ++ c6_security ++ c6_quality).map (fun f => f.severity)
      = ["critical", "warning", "critical", "warning", "warning", "info"] :=
  ⟨C6_report_rendering c6_logic c6_security c6_quality (by decide) (by decide),
   by decide, by decide, by decide, by decide⟩

/-! ## JSON escape repair (`services/llm.py`, `LLMService._fix_json_escapes`) -/

theorem okEscapes_cons_ordinary {c : Char} (rest : List Char)
    (hc : c ≠ '\\') (hq : c ≠ '"') :
    okEscapes (c :: rest) = okEscapes rest := by
  conv_lhs => rw [okEscapes.eq_def]
  simp only []
  rw [if_neg hc, if_neg hq]

theorem okEscapes_backslash {e : Char} {rest' : List Char}
    (hok : okEscapes ('\\' :: e :: rest') = true) :
    e ≠ '\\' ∧ e ≠ '\'' ∧ okEscapes rest' = true := by
  simp only [okEscapes, if_true] at hok
  by_cases hee : e = '\\' ∨ e = '\''
  · simp [hee] at hok
  · rw [if_neg hee] at hok
    refine ⟨fun h => hee (Or.inl h), fun h => hee (Or.inr h), ?_⟩
    by_cases heu : e = 'u'
    · rw [if_pos heu] at hok
      rcases rest' with _ | ⟨h1, _ | ⟨h2, _ | ⟨h3, _ | ⟨h4, rest''⟩⟩⟩⟩ <;>
        simp_all
    · rw [if_neg heu] at hok
      exact hok

theorem hasBackslashQuote_cons_ordinary {c : Char} (rest : List Char)
    (hc : c ≠ '\\') :
    hasBackslashQuote (c :: rest) = hasBackslashQuote rest := by
  rw [hasBackslashQuote.eq_def]
  simp only [hc, if_false]

theorem hasBackslashQuote_backslash {e : Char} (X : List Char) (hnq : e ≠ '\'') :
    hasBackslashQuote ('\\' :: e :: X) = hasBackslashQuote (e :: X) := by
  simp only [hasBackslashQuote, if_true]
  rw [if_neg hnq]

/-- The well-escaped bodies contain no backslash-apostrophe pair. -/
theorem okEscapes_no_bq :
    ∀ (n : Nat) (body : List Char), body.length ≤ n → okEscapes body = true →
      hasBackslashQuote body = false := by
  intro n
  induction n with
  | zero =>
    intro body hlen _
    rw [List.length_eq_zero.mp (Nat.le_zero.mp hlen)]
    rfl
  | succ n ih =>
    intro body hlen hok
    cases body with
    | nil => rfl
    | cons c rest =>
      by_cases hc : c = '\\'
      · subst hc
        cases rest with
        | nil => exact absurd hok (by decide)
        | cons e rest' =>
          obtain ⟨hne, hnq, hokr⟩ := okEscapes_backslash hok
          rw [hasBackslashQuote_backslash _ hnq,
            hasBackslashQuote_cons_ordinary _ hne]
          exact ih rest' (by simp only [List.length_cons] at hlen; omega) hokr
      · have hq : c ≠ '"' := by
          intro h
          subst h
          cases rest with
          | nil => simp [okEscapes] at hok
          | cons x xs => simp [okEscapes] at hok
        rw [hasBackslashQuote_cons_ordinary _ hc]
        rw [okEscapes_cons_ordinary rest hc hq] at hok
        exact ih rest (by simp only [List.length_cons] at hlen; omega) hok

theorem retryRun_bounds {α : Type} (responses : Nat → AttemptResult α) :
    ∀ (left i : Nat), 1 ≤ (retryRun responses i left).attempts ∧
      (retryRun responses i left).attempts ≤ left + 1 ∧
      (retryRun responses i left).sleeps
        = (retryRun responses i left).attempts - 1 := by
  intro left
  induction left with
  | zero => intro i; cases h : responses i <;> simp [retryRun, h]
  | succ l ih =>
    intro i
    cases h : responses i with
    | success v => simp [retryRun, h]
    | raisedOther e => simp [retryRun, h]
    | parseFailure e =>
      have hih := ih (i + 1)
      simp only [retryRun, h] at hih ⊢
      refine ⟨by omega, by omega, by omega⟩

theorem retryRun_all_fail {α : Type} (responses : Nat → AttemptResult α)
    (msg : Nat → String) :
    ∀ (left i : Nat),
      (∀ j, j < left + 1 → responses (i + j) = .parseFailure (msg (i + j))) →
      retryRun responses i left
        = ⟨.error (msg (i + left)), left + 1, left⟩ := by
  intro left
  induction left with
  | zero =>
    intro i hall
    have h0 := hall 0 (by omega)
    simp only [Nat.add_zero] at h0 ⊢
    simp [retryRun, h0]
  | succ l ih =>
    intro i hall
    have h0 := hall 0 (by omega)
    simp only [Nat.add_zero] at h0
    have hrec := ih (i + 1) (fun j hj => by
      have hj' := hall (j + 1) (by omega)
      have harith : i + (j + 1) = i + 1 + j := by omega
      rw [harith] at hj'
      exact hj')
    have harith2 : i + 1 + l = i + (l + 1) := by omega
    rw [harith2] at hrec
    simp [retryRun, h0, hrec]

/-! ## Claim C7 — structured-output retry policy -/

/-- **C7**: for every response sequence and schema type, `invoke_structured`
makes at least one and at most `max_retries + 1` attempts, the default
`max_retries` is 2, exactly one fixed one-second delay is slept between
consecutive attempts (sleeps = attempts − 1), an empty or whitespace-only
model response is a retryable failure raising
`ValueError("LLM returned empty response")` before any parsing, and when
every attempt fails retryably the call raises the error of the last
attempt after `max_retries + 1` attempts and `max_retries` delays. -/
theorem C7_retry_policy :
    defaultMaxRetries = 2 ∧
    (∀ (α : Type) (mr : Nat) (responses : Nat → AttemptResult α),
        1 ≤ (invoke_structured mr responses).attempts ∧
        (invoke_structured mr responses).attempts ≤ mr + 1 ∧
        (invoke_structured mr responses).sleeps
          = (invoke_structured mr responses).attempts - 1) ∧
    (∀ (α : Type) (content : String) (parse : String → AttemptResult α),
        content.trim = "" →
        attemptOfResponse content parse
          = .parseFailure "LLM returned empty response") ∧
    (∀ (α : Type) (mr : Nat) (responses : Nat → AttemptResult α)
        (msg : Nat → String),
        (∀ j, j ≤ mr → responses j = .parseFailure (msg j)) →
        invoke_structured mr responses
          = ⟨.error (msg mr), mr + 1, mr⟩) := by
  refine ⟨rfl, ?_, ?_, ?_⟩
  · intro α mr responses
    exact retryRun_bounds responses mr 0
  · intro α content parse h
    simp [attemptOfResponse, h]
  · intro α mr responses msg hall
    have h := retryRun_all_fail responses msg mr 0 (fun j hj => by
      rw [Nat.zero_add]
      exact hall j (by omega))
    rw [Nat.zero_add] at h
    exact h

/-! ## Claim C2 — failure behavior of the pipeline driver -/

/-- **C4** (amended): the `PROGRESS_STAGES` table does map the ten claimed
stage names to the claimed percentages, but a successfully completing run
broadcasts only seven of them — `fetching_diff`(10),
`fetching_context`(15), `logic_agent`(25), `critique_agent`(70),
`formatting`(90), `posting`(95), `complete`(100), in that order, with
strictly increasing percentages; `security_agent`, `quality_agent` and
`deduplicating` are never broadcast, and the run ends with status
completed. -/
theorem C4_progress_stages :
    (["fetching_diff", "fetching_context", "logic_agent", "security_agent",
      "quality_agent", "critique_agent", "deduplicating", "formatting",
      "posting", "complete"].map
        (fun s => (PROGRESS_STAGES s).map Prod.fst))
      = [some 10, some 15, some 25, some 40, some 55, some 70, some 80,
         some 90, some 95, some 100] ∧
    (∀ (env : Env) (rid : String) (d : List Char) (res : SupervisorResult)
        (cid : Option Nat),
        settingsDisabled env.repoSettings = false →
        env.diffFetch = Except.ok d →
        env.rateLimitOk = true →
        env.supRun (filter_diff d (userPatternsOf env.ignoreContent)).1
            (filter_diff d (userPatternsOf env.ignoreContent)).2.1
          = Except.ok res →
        env.persist = Except.ok () →
        env.postResult = Except.ok cid →
        (process_review env rid).broadcasts
            = ["fetching_diff", "fetching_context", "logic_agent",
               "critique_agent", "formatting", "posting", "complete"] ∧
        (process_review env rid).broadcasts.filterMap
            (fun s => (PROGRESS_STAGES s).map Prod.fst)
          = [10, 15, 25, 70, 90, 95, 100] ∧
        List.Chain' (fun a b => a < b)
          ((process_review env rid).broadcasts.filterMap
            (fun s => (PROGRESS_STAGES s).map Prod.fst)) ∧
        (process_review env rid).statuses
          = [(ReviewStatus.processing, none),
             (ReviewStatus.completed,
               if res.final_comment = "" then none else cid)]) := by
  constructor
  · decide
  · intro env rid d res cid hdis hdiff hrate hsup hper hpost
    by_cases hfe : (collectFindings rid (thresholdOf env.repoSettings)
        res.logic_findings res.security_findings
        res.quality_findings).isEmpty
    · by_cases hc : res.final_comment = ""
      · simp +decide [process_review, runBody, hdis, hdiff, hrate, hsup,
          hfe, hper, hc, hpost, broadcastStage, PROGRESS_STAGES]
      · simp +decide [process_review, runBody, hdis, hdiff, hrate, hsup,
          hfe, hper, hc, hpost, broadcastStage, PROGRESS_STAGES]
    · by_cases hc : res.final_comment = ""
      · simp +decide [process_review, runBody, hdis, hdiff, hrate, hsup,
          hfe, hper, hc, hpost, broadcastStage, PROGRESS_STAGES]
      · simp +decide [process_review, runBody, hdis, hdiff, hrate, hsup,
          hfe, hper, hc, hpost, broadcastStage, PROGRESS_STAGES]

/-- **C4 counterexample**: the fully successful run `C4env` broadcasts
exactly seven stages; `security_agent`, `quality_agent` and
`deduplicating` are absent, so the broadcast sequence is not the
ten-stage sequence the claim states. -/
theorem C4_counterexample :
    (process_review C4env "r1").broadcasts
        = ["fetching_diff", "fetching_context", "logic_agent",
           "critique_agent", "formatting", "posting", "complete"] ∧
    "security_agent" ∉ (process_review C4env "r1").broadcasts ∧
    "quality_agent" ∉ (process_review C4env "r1").broadcasts ∧
    "deduplicating" ∉ (process_review C4env "r1").broadcasts ∧
    (process_review C4env "r1").broadcasts
        ≠ ["fetching_diff", "fetching_context", "logic_agent",
           "security_agent", "quality_agent", "critique_agent",
           "deduplicating", "formatting", "posting", "complete"] ∧
    (process_review C4env "r1").statuses
        = [(ReviewStatus.processing, none),
           (ReviewStatus.completed, some 7)] := by
  decide

end CodeGuard
